import Mathlib

/-!
Shallow embedding of the hash-encoding and path-info core of the repository
(`src/libutil/hash.cc`, `src/libstore/path-info.cc`).  Byte buffers are
`List Nat` (each entry a byte value), strings are `List Char`, machine
truncation to `unsigned char` is an explicit `&&& 0xff`, and fallible code
returns `Except`.
-/

namespace Nix

/-- The four digest families (`HashType` in hash.hh). -/
inductive HashType
  | md5
  | sha1
  | sha256
  | sha512
deriving DecidableEq

def md5HashSize : Nat := 16
def sha1HashSize : Nat := 20
def sha256HashSize : Nat := 32
def sha512HashSize : Nat := 64
def maxHashSize : Nat := 64

/-- `regularHashSize` from hash.cc: natural digest byte length of each type. -/
def regularHashSize : HashType → Nat
  | .md5 => md5HashSize
  | .sha1 => sha1HashSize
  | .sha256 => sha256HashSize
  | .sha512 => sha512HashSize

/-- The four textual renderings (`HashFormat`). -/
inductive HashFormat
  | base16
  | base32
  | base64
  | sri
deriving DecidableEq

/-- A digest value: type tag, meaningful size, and a 64-byte buffer of which
only the first `hashSize` bytes are meaningful (`struct Hash`). -/
structure Hash where
  type : HashType
  hashSize : Nat
  hash : List Nat
deriving DecidableEq

/-- The `Hash(HashType)` constructor: natural size, zeroed 64-byte buffer. -/
def Hash.ofType (type : HashType) : Hash :=
  { type := type, hashSize := regularHashSize type, hash := List.replicate maxHashSize 0 }

/-- `Hash::operator ==`: compares the size and the first `hashSize` bytes
(the type tag takes no part). -/
def Hash.beq (h1 h2 : Hash) : Bool :=
  h1.hashSize == h2.hashSize &&
    (List.range h1.hashSize).all fun i => h1.hash.getD i 0 == h2.hash.getD i 0

/-- `Hash Hash::dummy(htSHA256)`. -/
def Hash.dummy : Hash := Hash.ofType .sha256

/-- Modelled from the spec: base-16 textual length `2·n` (declared in hash.hh,
which is not under src/). -/
def Hash.base16Len (h : Hash) : Nat := h.hashSize * 2

/-- Modelled from the spec: base-32 textual length `⌈8·n / 5⌉` (declared in
hash.hh, which is not under src/). -/
def Hash.base32Len (h : Hash) : Nat := (8 * h.hashSize + 4) / 5

/-- Modelled from the spec: base-64 standard padded length, `4·⌈n/3⌉`
(declared in hash.hh, which is not under src/). -/
def Hash.base64Len (h : Hash) : Nat := 4 * ((h.hashSize + 2) / 3)

def base16Chars : List Char := "0123456789abcdef".toList

/-- The custom base-32 alphabet of hash.cc (the letters e o u t are omitted). -/
def base32Chars : List Char := "0123456789abcdfghijklmnpqrsvwxyz".toList

/-- Modelled from the spec: the standard RFC 4648 base-64 alphabet (the
implementation lives in util.cc, which is not under src/). -/
def base64Chars : List Char := "ABCDEFGHIJKLMNOPQRSTUVWXYZabcdefghijklmnopqrstuvwxyz0123456789+/".toList

/-- `printHash16`: two lower-case hex characters per byte, high nibble first. -/
def printHash16 (h : Hash) : List Char :=
  (h.hash.take h.hashSize).flatMap fun b =>
    [base16Chars.getD (b >>> 4) ' ', base16Chars.getD (b &&& 0x0f) ' ']

/-- The character pushed by `printHash32` for loop counter `n`: the 5-bit
group at bit offset `n*5`, with the `unsigned char` truncation explicit. -/
def printHash32Char (h : Hash) (n : Nat) : Char :=
  let b := n * 5
  let i := b / 8
  let j := b % 8
  let c := ((h.hash.getD i 0 >>> j) |||
      (if h.hashSize - 1 ≤ i then 0 else h.hash.getD (i + 1) 0 <<< (8 - j))) &&& 0xff
  base32Chars.getD (c &&& 0x1f) ' '

/-- `printHash32`: emits the characters for `n = base32Len-1` down to `0`. -/
def printHash32 (h : Hash) : List Char :=
  ((List.range h.base32Len).reverse).map (printHash32Char h)

/-- Modelled from the spec: standard RFC 4648 base-64 encoding with padding
(util.cc's `base64Encode` is not under src/). -/
def base64Encode : List Nat → List Char
  | [] => []
  | [a] =>
    [base64Chars.getD (a >>> 2) ' ',
     base64Chars.getD ((a &&& 0x3) <<< 4) ' ', '=', '=']
  | [a, b] =>
    [base64Chars.getD (a >>> 2) ' ',
     base64Chars.getD (((a &&& 0x3) <<< 4) ||| (b >>> 4)) ' ',
     base64Chars.getD ((b &&& 0xf) <<< 2) ' ', '=']
  | a :: b :: c :: rest =>
    base64Chars.getD (a >>> 2) ' ' ::
    base64Chars.getD (((a &&& 0x3) <<< 4) ||| (b >>> 4)) ' ' ::
    base64Chars.getD (((b &&& 0xf) <<< 2) ||| (c >>> 6)) ' ' ::
    base64Chars.getD (c &&& 0x3f) ' ' ::
    base64Encode rest

/-- Index of a character in the base-64 alphabet. -/
def base64DigitOf (c : Char) : Option Nat :=
  let i := base64Chars.findIdx (· = c)
  if i < 64 then some i else none

/-- Modelled from the spec: standard RFC 4648 base-64 decoding; `=` padding
is consumed, a trailing unpadded group of two or three characters is also
accepted, invalid characters are rejected (util.cc's `base64Decode` is not
under src/). -/
def base64Decode : List Char → Option (List Nat)
  | [] => some []
  | c1 :: c2 :: c3 :: c4 :: rest =>
    if c3 = '=' ∧ c4 = '=' ∧ rest = [] then do
      let d1 ← base64DigitOf c1
      let d2 ← base64DigitOf c2
      some [((d1 <<< 2) ||| (d2 >>> 4)) &&& 0xff]
    else if c4 = '=' ∧ rest = [] then do
      let d1 ← base64DigitOf c1
      let d2 ← base64DigitOf c2
      let d3 ← base64DigitOf c3
      some [((d1 <<< 2) ||| (d2 >>> 4)) &&& 0xff,
            (((d2 &&& 0xf) <<< 4) ||| (d3 >>> 2)) &&& 0xff]
    else do
      let d1 ← base64DigitOf c1
      let d2 ← base64DigitOf c2
      let d3 ← base64DigitOf c3
      let d4 ← base64DigitOf c4
      let tl ← base64Decode rest
      some ((((d1 <<< 2) ||| (d2 >>> 4)) &&& 0xff) ::
            ((((d2 &&& 0xf) <<< 4) ||| (d3 >>> 2)) &&& 0xff) ::
            ((((d3 &&& 0x3) <<< 6) ||| d4) &&& 0xff) :: tl)
  | [c1, c2] => do
    let d1 ← base64DigitOf c1
    let d2 ← base64DigitOf c2
    some [((d1 <<< 2) ||| (d2 >>> 4)) &&& 0xff]
  | [c1, c2, c3] => do
    let d1 ← base64DigitOf c1
    let d2 ← base64DigitOf c2
    let d3 ← base64DigitOf c3
    some [((d1 <<< 2) ||| (d2 >>> 4)) &&& 0xff,
          (((d2 &&& 0xf) <<< 4) ||| (d3 >>> 2)) &&& 0xff]
  | [_] => none

/-- `printHashType`: textual algorithm tag. -/
def printHashType : HashType → List Char
  | .md5 => "md5".toList
  | .sha1 => "sha1".toList
  | .sha256 => "sha256".toList
  | .sha512 => "sha512".toList

/-- `Hash::to_string`: optional `<type>:` / `<type>-` prefix, then the body
in the requested format. -/
def Hash.to_string (h : Hash) (hashFormat : HashFormat) (includeType : Bool) : List Char :=
  (if hashFormat = .sri ∨ includeType then
     printHashType h.type ++ [if hashFormat = .sri then '-' else ':']
   else []) ++
  (match hashFormat with
   | .base16 => printHash16 h
   | .base32 => printHash32 h
   | .base64 | .sri => base64Encode (h.hash.take h.hashSize))

/-- The error kinds raised by the hash parsing layer (spec §7). -/
inductive HashError
  | badHashType
  | unknownHashType
  | badHashEncoding
  | badHashLength
deriving DecidableEq

instance {ε α : Type} [DecidableEq ε] [DecidableEq α] : DecidableEq (Except ε α) := fun a b =>
  match a, b with
  | .ok x, .ok y =>
    if h : x = y then .isTrue (by rw [h]) else .isFalse (fun he => by cases he; exact h rfl)
  | .error x, .error y =>
    if h : x = y then .isTrue (by rw [h]) else .isFalse (fun he => by cases he; exact h rfl)
  | .ok _, .error _ => .isFalse (fun he => by cases he)
  | .error _, .ok _ => .isFalse (fun he => by cases he)

/-- `parseHashTypeOpt` from hash.cc. -/
def parseHashTypeOpt (s : List Char) : Option HashType :=
  if s = "md5".toList then some .md5
  else if s = "sha1".toList then some .sha1
  else if s = "sha256".toList then some .sha256
  else if s = "sha512".toList then some .sha512
  else none

/-- `parseHashType` from hash.cc: throws `UnknownHashType` on anything else. -/
def parseHashType (s : List Char) : Except HashError HashType :=
  match parseHashTypeOpt s with
  | some ht => .ok ht
  | none => .error .unknownHashType

/-- Modelled from the spec: `splitPrefixTo` (util's split.hh, not under src/)
splits off the part before the first occurrence of the separator and leaves
the remainder; fails when the separator does not occur. -/
def splitPrefixTo (sep : Char) : List Char → Option (List Char × List Char)
  | [] => none
  | c :: cs =>
    if c = sep then some ([], cs)
    else
      match splitPrefixTo sep cs with
      | some (pre, rest) => some (c :: pre, rest)
      | none => none

/-- `getParsedTypeAndSRI` from hash.cc: strips an optional `<type>:` prefix,
or `<type>-` (SRI), and parses the type tag. -/
def getParsedTypeAndSRI (s : List Char) :
    Except HashError (Option HashType × Bool × List Char) :=
  match splitPrefixTo ':' s with
  | some (pre, rest) =>
    match parseHashType pre with
    | .ok t => .ok (some t, false, rest)
    | .error e => .error e
  | none =>
    match splitPrefixTo '-' s with
    | some (pre, rest) =>
      match parseHashType pre with
      | .ok t => .ok (some t, true, rest)
      | .error e => .error e
    | none => .ok (none, false, s)

/-- `parseHexDigit` (the lambda in the base-16 branch of the parsing
constructor). -/
def parseHexDigit (c : Char) : Except HashError Nat :=
  if '0' ≤ c ∧ c ≤ '9' then .ok (c.toNat - '0'.toNat)
  else if 'A' ≤ c ∧ c ≤ 'F' then .ok (c.toNat - 'A'.toNat + 10)
  else if 'a' ≤ c ∧ c ≤ 'f' then .ok (c.toNat - 'a'.toNat + 10)
  else .error .badHashEncoding

/-- The base-16 loop of the parsing constructor: one byte from each pair of
characters, `hash[i] = hex(rest[i*2]) << 4 | hex(rest[i*2+1])`, rendered as
recursion that consumes the two characters of byte `i` at each step. -/
def parseBase16 : List Char → Except HashError (List Nat)
  | [] => .ok []
  | c1 :: c2 :: rest => do
    let hi ← parseHexDigit c1
    let lo ← parseHexDigit c2
    let tl ← parseBase16 rest
    .ok ((((hi <<< 4) ||| lo) &&& 0xff) :: tl)
  | [_] => .error .badHashEncoding

/-- One iteration of the base-32 loop of the parsing constructor, at loop
counter `n`: look the character up in the alphabet, accumulate
`hash[i] |= digit << j` and either `hash[i+1] |= digit >> (8-j)` or, on the
top byte, reject non-zero spill bits. -/
def parseBase32Step (size : Nat) (rest : List Char) (buf : List Nat) (n : Nat) :
    Except HashError (List Nat) :=
  let c := rest.getD (rest.length - n - 1) ' '
  let digit := base32Chars.findIdx (· = c)
  if 32 ≤ digit then .error .badHashEncoding
  else
    let b := n * 5
    let i := b / 8
    let j := b % 8
    let buf' := buf.set i ((buf.getD i 0 ||| (digit <<< j)) &&& 0xff)
    if i < size - 1 then
      .ok (buf'.set (i + 1) ((buf'.getD (i + 1) 0 ||| (digit >>> (8 - j))) &&& 0xff))
    else
      if digit >>> (8 - j) ≠ 0 then .error .badHashEncoding
      else .ok buf'

/-- The base-32 loop of the parsing constructor: iterate `n` over
`[0, rest.length)` from the right end of the string. -/
def parseBase32 (size : Nat) (rest : List Char) : Except HashError (List Nat) :=
  (List.range rest.length).foldlM (parseBase32Step size rest) (List.replicate maxHashSize 0)

/-- The parsing constructor `Hash::Hash(std::string_view, HashType, bool)`:
dispatches on the body length (base-16, base-32, base-64) unless SRI, which
forces base-64. -/
def Hash.ofParse (rest : List Char) (type : HashType) (isSRI : Bool) :
    Except HashError Hash :=
  let h0 := Hash.ofType type
  if ¬isSRI ∧ rest.length = h0.base16Len then do
    let bs ← parseBase16 rest
    .ok { h0 with hash := bs ++ List.replicate (maxHashSize - h0.hashSize) 0 }
  else if ¬isSRI ∧ rest.length = h0.base32Len then do
    let buf ← parseBase32 h0.hashSize rest
    .ok { h0 with hash := buf }
  else if isSRI ∨ rest.length = h0.base64Len then
    match base64Decode rest with
    | none => .error .badHashEncoding
    | some d =>
      if d.length ≠ h0.hashSize then .error .badHashEncoding
      else .ok { h0 with hash := d ++ List.replicate (maxHashSize - h0.hashSize) 0 }
  else .error .badHashLength

/-- `Hash::parseAny`: optional prefix; the string and the caller must agree
on the type when both provide one. -/
def Hash.parseAny (original : List Char) (optType : Option HashType) :
    Except HashError Hash := do
  let (optParsedType, isSRI, rest) ← getParsedTypeAndSRI original
  match optParsedType, optType with
  | none, none => .error .badHashType
  | some pt, some t =>
    if pt ≠ t then .error .badHashType else Hash.ofParse rest pt isSRI
  | some pt, none => Hash.ofParse rest pt isSRI
  | none, some t => Hash.ofParse rest t isSRI

/-- `compressHash`: XOR-fold the digest into `newSize` bytes (the
destination byte stays an `unsigned char`, hence the explicit truncation). -/
def compressHash (hash : Hash) (newSize : Nat) : Hash :=
  let h0 := Hash.ofType hash.type
  { h0 with
    hashSize := newSize,
    hash := (List.range hash.hashSize).foldl
      (fun buf i =>
        buf.set (i % newSize) ((buf.getD (i % newSize) 0 ^^^ hash.hash.getD i 0) &&& 0xff))
      h0.hash }

/-- `compressHash` with the partiality of the C++ `%` made explicit: the
destination index `i % newSize` is a division by zero whenever the loop body
runs with `newSize == 0`, so the iteration is modelled in `Option` and
returns `none` in exactly that situation. -/
def compressHashChecked (hash : Hash) (newSize : Nat) : Option Hash := do
  let h0 := Hash.ofType hash.type
  let buf ← (List.range hash.hashSize).foldlM
    (fun buf i => do
      if newSize = 0 then none
      else
        some (buf.set (i % newSize) ((buf.getD (i % newSize) 0 ^^^ hash.hash.getD i 0) &&& 0xff)))
    h0.hash
  some { h0 with hashSize := newSize, hash := buf }

/-- A machine-representable hash buffer: 64 bytes, each below 256. -/
def Hash.WF (h : Hash) : Prop :=
  h.hash.length = maxHashSize ∧ ∀ b ∈ h.hash, b < 256

/-- A hash of type `t` whose meaningful bytes are exactly `bs`. -/
def Hash.ofBytes (t : HashType) (bs : List Nat) : Hash :=
  { type := t, hashSize := bs.length, hash := bs ++ List.replicate (maxHashSize - bs.length) 0 }

/-- Little-endian numeric value of a byte list (proof-support view of a
byte buffer as one big number). -/
def byteVal : List Nat → Nat
  | [] => 0
  | b :: bs => b + 256 * byteVal bs

/-- The 64-byte buffer holding the little-endian bytes of `x`. -/
def byteListOf (x : Nat) : List Nat :=
  (List.range maxHashSize).map fun r => x / 2 ^ (8 * r) % 256

/-- The base-32 rejection condition exactly as the spec words it: at some
step `m` of the right-to-left parse, with `i = 5m/8` and `j = 5m%8`, the
digit satisfies `i+1 == size−1` and has non-zero high bits `d >> (8−j)`. -/
def base32SpecRejects (size : Nat) (rest : List Char) : Bool :=
  (List.range rest.length).any fun m =>
    let c := rest.getD (rest.length - m - 1) ' '
    let digit := base32Chars.findIdx (· = c)
    let i := m * 5 / 8
    let j := m * 5 % 8
    i + 1 = size - 1 && digit >>> (8 - j) ≠ 0

/-- Store paths are opaque identifiers rendered by the store; modelled as
character strings. -/
abbrev StorePath := List Char

/-- Strict comparison used for the std::set ordering of reference sets. -/
def storePathLt : StorePath → StorePath → Bool
  | [], [] => false
  | [], _ :: _ => true
  | _ :: _, [] => false
  | a :: as, b :: bs => if a < b then true else if b < a then false else storePathLt as bs

/-- Ordered-set insert mirroring `std::set::insert`: keeps the element list
sorted and never duplicates. -/
def setInsert (x : StorePath) : List StorePath → List StorePath
  | [] => [x]
  | y :: ys =>
    if storePathLt x y then x :: y :: ys
    else if x = y then y :: ys
    else y :: setInsert x ys

/-- `std::set::erase`: removes the element when present. -/
def setErase (x : StorePath) (l : List StorePath) : List StorePath :=
  l.filter (fun y => y ≠ x)

/-- Modelled from the spec: `FileIngestionMethod` — Flat, NAR or Git
(content-address.hh is not under src/). -/
inductive FileIngestionMethod
  | flat
  | nar
  | git
deriving DecidableEq

/-- Modelled from the spec: `ContentAddressMethod` — TextIngestion or
FileIngestion (content-address.hh is not under src/). -/
inductive ContentAddressMethod
  | text
  | file (m : FileIngestionMethod)
deriving DecidableEq

/-- Modelled from the spec: a `ContentAddress` pairs a method with a hash. -/
structure ContentAddress where
  method : ContentAddressMethod
  hash : Hash
deriving DecidableEq

/-- Modelled from the spec: `ContentAddressWithReferences` — TextInfo, or
FixedOutputInfo whose references split into `others` and a `self` flag. -/
inductive ContentAddressWithReferences
  | textInfo (hash : Hash) (references : List StorePath)
  | fixedOutputInfo (method : FileIngestionMethod) (hash : Hash)
      (others : List StorePath) (self : Bool)
deriving DecidableEq

/-- `UnkeyedValidPathInfo` (path-info.hh): reference sets and signature sets
are modelled as lists in their set-iteration order. -/
structure UnkeyedValidPathInfo where
  deriver : Option StorePath
  narHash : Hash
  references : List StorePath
  registrationTime : Int
  narSize : Nat
  ultimate : Bool
  sigs : List (List Char)
  ca : Option ContentAddress
deriving DecidableEq

/-- `ValidPathInfo`: a store path together with its unkeyed metadata. -/
structure ValidPathInfo extends UnkeyedValidPathInfo where
  path : StorePath
deriving DecidableEq

/-- Modelled from the spec: the store collaborator consumed by path-info.cc
(printing store paths, path names, and deriving a fixed-output path from a
content-address); store-api is not under src/. -/
structure StoreModel where
  printStorePath : StorePath → List Char
  name : StorePath → List Char
  makeFixedOutputPathFromCA : List Char → ContentAddressWithReferences → StorePath

/-- Modelled from the spec: the detached-signature primitive is an external
collaborator; a set of public keys is modelled by the predicate telling
which (message, signature) pairs verify. -/
structure PublicKeys where
  verify : List Char → List Char → Bool

/-- Modelled from the spec: `verifyDetached(msg, sig, publicKeys)`. -/
def verifyDetached (msg sig : List Char) (publicKeys : PublicKeys) : Bool :=
  publicKeys.verify msg sig

/-- Modelled from the spec: the `maxSigs` sentinel (the largest `size_t`). -/
def maxSigs : Nat := 2 ^ 64 - 1

/-- Abnormal outcomes of the path-info operations: a fingerprint request
with unknown NAR size, or a failed `assert`. -/
inductive PathInfoError
  | fingerprintUnavailable
  | assertionFailure
deriving DecidableEq

/-- Modelled from the spec: `concatStringsSep` (util, not under src/) joins
strings with a separator. -/
def concatStringsSep (sep : List Char) : List (List Char) → List Char
  | [] => []
  | [s] => s
  | s :: rest => s ++ sep ++ concatStringsSep sep rest

/-- The canonical fingerprint string built by `ValidPathInfo::fingerprint`;
the references are rendered via the store in set order (the spec's
`print_path_set`). -/
def ValidPathInfo.fingerprintStr (store : StoreModel) (v : ValidPathInfo) : List Char :=
  "1;".toList ++ store.printStorePath v.path ++ ";".toList
    ++ v.narHash.to_string .base32 true ++ ";".toList
    ++ (Nat.repr v.narSize).toList ++ ";".toList
    ++ concatStringsSep ",".toList (v.references.map store.printStorePath)

/-- `ValidPathInfo::fingerprint`: fails when the NAR size is unknown. -/
def ValidPathInfo.fingerprint (store : StoreModel) (v : ValidPathInfo) :
    Except PathInfoError (List Char) :=
  if v.narSize = 0 then .error .fingerprintUnavailable
  else .ok (v.fingerprintStr store)

/-- `ValidPathInfo::contentAddressWithReferences`: the `assert` of the
TextIngestion branch is modelled as an error outcome. -/
def ValidPathInfo.contentAddressWithReferences (v : ValidPathInfo) :
    Except PathInfoError (Option ContentAddressWithReferences) :=
  match v.ca with
  | none => .ok none
  | some ca =>
    match ca.method with
    | .text =>
      if v.references.contains v.path then .error .assertionFailure
      else .ok (some (.textInfo ca.hash v.references))
    | .file m2 =>
      if v.references.contains v.path then
        .ok (some (.fixedOutputInfo m2 ca.hash (setErase v.path v.references) true))
      else
        .ok (some (.fixedOutputInfo m2 ca.hash v.references false))

/-- `ValidPathInfo::isContentAddressed`: reconstruct the content-address and
compare the derived fixed-output path with the actual path. -/
def ValidPathInfo.isContentAddressed (store : StoreModel) (v : ValidPathInfo) :
    Except PathInfoError Bool := do
  match ← v.contentAddressWithReferences with
  | none => pure false
  | some fullCa =>
    pure (store.makeFixedOutputPathFromCA (store.name v.path) fullCa == v.path)

/-- `ValidPathInfo::checkSignature`: verify one detached signature against
the fingerprint. -/
def ValidPathInfo.checkSignature (store : StoreModel) (publicKeys : PublicKeys)
    (sig : List Char) (v : ValidPathInfo) : Except PathInfoError Bool := do
  pure (verifyDetached (← v.fingerprint store) sig publicKeys)

/-- `ValidPathInfo::checkSignatures`: content-addressed paths get the
`maxSigs` sentinel, otherwise count individually-verifying signatures. -/
def ValidPathInfo.checkSignatures (store : StoreModel) (publicKeys : PublicKeys)
    (v : ValidPathInfo) : Except PathInfoError Nat := do
  if ← v.isContentAddressed store then pure maxSigs
  else
    v.sigs.foldlM (fun good sig => do
      if ← v.checkSignature store publicKeys sig then pure (good + 1) else pure good) 0

/-- The keyed constructor
`ValidPathInfo::ValidPathInfo(store, name, ContentAddressWithReferences, narHash)`:
derives the path from the content-address and populates `references` and
`ca`; the remaining fields take their default values. -/
def ValidPathInfo.ofCA (store : StoreModel) (name : List Char)
    (ca : ContentAddressWithReferences) (narHash : Hash) : ValidPathInfo :=
  let path := store.makeFixedOutputPathFromCA name ca
  match ca with
  | .textInfo hash refs =>
    { path := path, deriver := none, narHash := narHash, references := refs,
      registrationTime := 0, narSize := 0, ultimate := false, sigs := [],
      ca := some { method := .text, hash := hash } }
  | .fixedOutputInfo m hash others self =>
    { path := path, deriver := none, narHash := narHash,
      references := if self then setInsert path others else others,
      registrationTime := 0, narSize := 0, ultimate := false, sigs := [],
      ca := some { method := .file m, hash := hash } }

/-! ## Helper lemmas -/

theorem and_255_eq (x : Nat) : x &&& 255 = x % 256 :=
  Nat.and_pow_two_sub_one_eq_mod x 8

theorem and_31_eq (x : Nat) : x &&& 31 = x % 32 :=
  Nat.and_pow_two_sub_one_eq_mod x 5

theorem getD_set_self (l : List Nat) (i x : Nat) (h : i < l.length) :
    (l.set i x).getD i 0 = x := by
  simp [List.getD_eq_getElem?_getD, List.getElem?_set_self h]

theorem getD_set_ne (l : List Nat) (i r x : Nat) (h : i ≠ r) :
    (l.set i x).getD r 0 = l.getD r 0 := by
  simp [List.getD_eq_getElem?_getD, List.getElem?_set_ne h]

theorem getD_replicate_zero (n r : Nat) : (List.replicate n (0 : Nat)).getD r 0 = 0 := by
  rw [List.getD_eq_getElem?_getD, List.getElem?_replicate]
  split <;> rfl

theorem getD_reverse_map_range (L : Nat) (f : Nat → Char) (k : Nat) (hk : k < L) :
    (((List.range L).reverse).map f).getD (L - 1 - k) ' ' = f k := by
  have h1 : L - 1 - k < (List.range L).length := by simp; omega
  rw [List.getD_eq_getElem?_getD, List.getElem?_map,
      List.getElem?_reverse (by simpa using h1)]
  have h2 : (List.range L).length - 1 - (L - 1 - k) = k := by simp; omega
  rw [h2, List.getElem?_range hk]
  rfl

/-! ## Claims C2, C8, C9, C10 -/

/-- C2: for a hash of `n ≥ 1` bytes the base-32 rendering has length
`⌈8n/5⌉ = (8n+4)/5`, and the character at position `L－1－k` is the alphabet
entry selected by the 5-bit group at bit offset `5k` of the byte buffer,
exactly as the claim's formula states it (with `bytes[i+1]` read as 0 when
`i+1 ≥ n`). -/
theorem base32_render_spec (h : Hash) (h1 : 1 ≤ h.hashSize) :
    (printHash32 h).length = (8 * h.hashSize + 4) / 5 ∧
    ∀ k, k < (8 * h.hashSize + 4) / 5 →
      (printHash32 h).getD ((8 * h.hashSize + 4) / 5 - 1 - k) ' ' =
        base32Chars.getD
          (((h.hash.getD (k * 5 / 8) 0 >>> (k * 5 % 8)) |||
            ((if k * 5 / 8 + 1 < h.hashSize then h.hash.getD (k * 5 / 8 + 1) 0 else 0)
              <<< (8 - k * 5 % 8))) &&& 0x1f) ' ' := by
  constructor
  · simp [printHash32, Hash.base32Len]
  · intro k hk
    have hL : Hash.base32Len h = (8 * h.hashSize + 4) / 5 := rfl
    rw [printHash32, hL, getD_reverse_map_range _ _ _ hk]
    simp only [printHash32Char]
    rw [Nat.and_assoc]
    have h255 : (0xff &&& 0x1f : Nat) = 0x1f := by decide
    rw [h255]
    rcases Nat.lt_or_ge (k * 5 / 8 + 1) h.hashSize with hlt | hge
    · rw [if_neg (by omega), if_pos hlt]
    · rw [if_pos (by omega), if_neg (by omega), Nat.zero_shiftLeft]

/-- C2 witness: the characterization instantiated at the all-zero MD5 hash. -/
theorem base32_render_spec_witness :
    (printHash32 (Hash.ofType .md5)).length = (8 * (Hash.ofType .md5).hashSize + 4) / 5 ∧
    ∀ k, k < (8 * (Hash.ofType .md5).hashSize + 4) / 5 →
      (printHash32 (Hash.ofType .md5)).getD
          ((8 * (Hash.ofType .md5).hashSize + 4) / 5 - 1 - k) ' ' =
        base32Chars.getD
          ((((Hash.ofType .md5).hash.getD (k * 5 / 8) 0 >>> (k * 5 % 8)) |||
            ((if k * 5 / 8 + 1 < (Hash.ofType .md5).hashSize then
                (Hash.ofType .md5).hash.getD (k * 5 / 8 + 1) 0
              else 0) <<< (8 - k * 5 % 8))) &&& 0x1f) ' ' :=
  base32_render_spec (Hash.ofType .md5) (by decide)

/-- C8 counterexample: `Hash::dummy` is the all-zero SHA-256 digest, so its
SRI rendering is not the claimed base-64 of the empty-input SHA-256. -/
theorem dummy_sri_counterexample :
    Hash.dummy.to_string .sri true ≠
      "sha256-47DEQpj8HBSa+/TImW+5JCeuQeRkm5NMpJWZG3hSuFU=".toList := by
  decide

/-- C8 (amended): `Hash::dummy` is the 32-byte all-zero SHA-256 hash; its
base-16 rendering is 64 `'0'` characters, and its SRI rendering is
`"sha256-"` followed by 43 `'A'` characters and one `'='`. -/
theorem dummy_renderings :
    Hash.dummy.type = .sha256 ∧ Hash.dummy.hashSize = 32 ∧
    Hash.dummy.hash = List.replicate 64 0 ∧
    Hash.dummy.to_string .base16 false = List.replicate 64 '0' ∧
    Hash.dummy.to_string .sri true = "sha256-".toList ++ List.replicate 43 'A' ++ ['='] := by
  decide

theorem one_le_regularHashSize (t : HashType) : 1 ≤ regularHashSize t := by
  cases t <;> decide

theorem regularHashSize_le_max (t : HashType) : regularHashSize t ≤ maxHashSize := by
  cases t <;> decide

theorem getD_lt_256 (l : List Nat) (hb : ∀ b ∈ l, b < 256) (i : Nat) : l.getD i 0 < 256 := by
  rw [List.getD_eq_getElem?_getD]
  cases hg : l[i]? with
  | none => simp
  | some v => simpa using hb v (List.getElem?_mem hg)

theorem compress_fold_length (hsh : Hash) (newSize : Nat) :
    ∀ (m : Nat) (buf : List Nat),
      ((List.range m).foldl
        (fun buf i =>
          buf.set (i % newSize) ((buf.getD (i % newSize) 0 ^^^ hsh.hash.getD i 0) &&& 0xff))
        buf).length = buf.length := by
  intro m
  induction m with
  | zero => intro buf; rfl
  | succ n ih =>
    intro buf
    rw [List.range_succ, List.foldl_append]
    simp only [List.foldl_cons, List.foldl_nil, List.length_set]
    exact ih buf

theorem compress_fold_zero_above (hsh : Hash) (newSize : Nat) (h1 : 1 ≤ newSize)
    (r : Nat) (hr : newSize ≤ r) :
    ∀ (m : Nat) (buf : List Nat), buf.getD r 0 = 0 →
      ((List.range m).foldl
        (fun buf i =>
          buf.set (i % newSize) ((buf.getD (i % newSize) 0 ^^^ hsh.hash.getD i 0) &&& 0xff))
        buf).getD r 0 = 0 := by
  intro m
  induction m with
  | zero => intro buf hbuf; exact hbuf
  | succ n ih =>
    intro buf hbuf
    rw [List.range_succ, List.foldl_append]
    simp only [List.foldl_cons, List.foldl_nil]
    rw [getD_set_ne _ _ _ _ (by have h2 := Nat.mod_lt n (show 0 < newSize by omega); omega)]
    exact ih buf hbuf

theorem compress_fold_id (hsh : Hash) (h1 : 1 ≤ hsh.hashSize) (hle : hsh.hashSize ≤ maxHashSize) :
    ∀ m, m ≤ hsh.hashSize → ∀ r : Nat,
      ((List.range m).foldl
        (fun buf i =>
          buf.set (i % hsh.hashSize)
            ((buf.getD (i % hsh.hashSize) 0 ^^^ hsh.hash.getD i 0) &&& 0xff))
        (List.replicate maxHashSize 0)).getD r 0
      = if r < m then hsh.hash.getD r 0 &&& 0xff else 0 := by
  intro m
  induction m with
  | zero => intro _ r; simp [getD_replicate_zero]
  | succ n ih =>
    intro hm r
    rw [List.range_succ, List.foldl_append]
    simp only [List.foldl_cons, List.foldl_nil]
    have hmod : n % hsh.hashSize = n := Nat.mod_eq_of_lt (by omega)
    have hlen : ((List.range n).foldl
        (fun buf i =>
          buf.set (i % hsh.hashSize)
            ((buf.getD (i % hsh.hashSize) 0 ^^^ hsh.hash.getD i 0) &&& 0xff))
        (List.replicate maxHashSize 0)).length = maxHashSize := by
      rw [compress_fold_length]; simp
    rw [hmod]
    rcases eq_or_ne r n with rfl | hne
    · have hprev := ih (by omega) r
      rw [if_neg (by omega)] at hprev
      rw [getD_set_self _ _ _ (by rw [hlen]; omega), hprev, Nat.zero_xor,
        if_pos (by omega)]
    · rw [getD_set_ne _ _ _ _ (Ne.symm hne), ih (by omega) r]
      rcases Nat.lt_or_ge r n with hlt | hge
      · rw [if_pos hlt, if_pos (by omega)]
      · rw [if_neg (by omega), if_neg (by omega)]

/-- C9: compressing a hash of natural size to its own size is the identity:
the result is `==`-equal to the input, keeps the type and the size, and its
buffer stays zero beyond `hashSize`. -/
theorem compressHash_self_identity (h : Hash) (hwf : Hash.WF h)
    (hnat : h.hashSize = regularHashSize h.type) :
    Hash.beq (compressHash h h.hashSize) h = true ∧
    (compressHash h h.hashSize).type = h.type ∧
    (compressHash h h.hashSize).hashSize = h.hashSize ∧
    ∀ i, h.hashSize ≤ i → (compressHash h h.hashSize).hash.getD i 0 = 0 := by
  obtain ⟨hlen, hbytes⟩ := hwf
  have h1 : 1 ≤ h.hashSize := hnat ▸ one_le_regularHashSize h.type
  have hle : h.hashSize ≤ maxHashSize := hnat ▸ regularHashSize_le_max h.type
  have hbufeq : (compressHash h h.hashSize).hash
      = (List.range h.hashSize).foldl
          (fun buf i =>
            buf.set (i % h.hashSize)
              ((buf.getD (i % h.hashSize) 0 ^^^ h.hash.getD i 0) &&& 0xff))
          (List.replicate maxHashSize 0) := rfl
  refine ⟨?_, rfl, rfl, ?_⟩
  · rw [Hash.beq]
    simp only [Bool.and_eq_true, beq_iff_eq, List.all_eq_true, List.mem_range]
    refine ⟨rfl, ?_⟩
    intro i hi
    have hi' : i < h.hashSize := hi
    rw [hbufeq, compress_fold_id h h1 hle h.hashSize le_rfl i, if_pos hi',
      and_255_eq, Nat.mod_eq_of_lt (getD_lt_256 h.hash hbytes i)]
  · intro i hi
    rw [hbufeq]
    exact compress_fold_zero_above h h.hashSize h1 i hi h.hashSize
      (List.replicate maxHashSize 0) (getD_replicate_zero _ _)

/-- C9 witness: the identity at a concrete well-formed SHA-256 hash. -/
theorem compressHash_self_identity_witness :
    Hash.beq (compressHash (Hash.ofBytes .sha256 (List.range 32)) 32)
      (Hash.ofBytes .sha256 (List.range 32)) = true ∧
    (compressHash (Hash.ofBytes .sha256 (List.range 32)) 32).type = .sha256 ∧
    (compressHash (Hash.ofBytes .sha256 (List.range 32)) 32).hashSize = 32 ∧
    ∀ i, 32 ≤ i →
      (compressHash (Hash.ofBytes .sha256 (List.range 32)) 32).hash.getD i 0 = 0 :=
  compressHash_self_identity (Hash.ofBytes .sha256 (List.range 32))
    ⟨by decide, by decide⟩ (by decide)

theorem compressChecked_fold_eq (hsh : Hash) (newSize : Nat) (h1 : 1 ≤ newSize) :
    ∀ (m : Nat) (buf : List Nat),
      (List.range m).foldlM
        (fun buf i =>
          if newSize = 0 then none
          else
            some (buf.set (i % newSize)
              ((buf.getD (i % newSize) 0 ^^^ hsh.hash.getD i 0) &&& 0xff)))
        buf
      = some ((List.range m).foldl
          (fun buf i =>
            buf.set (i % newSize) ((buf.getD (i % newSize) 0 ^^^ hsh.hash.getD i 0) &&& 0xff))
          buf) := by
  intro m
  induction m with
  | zero => intro buf; rfl
  | succ n ih =>
    intro buf
    rw [List.range_succ, List.foldlM_append, List.foldl_append, ih]
    simp [if_neg (show ¬newSize = 0 by omega)]

/-- C10: `compressHash` is total only under the unstated precondition
`newSize ≥ 1` (with `newSize == 0` the loop body divides by zero, modelled
as the `none` outcome); under that precondition it returns a hash of the
same type whose size is `newSize` and whose bytes at indices `≥ newSize`
are zero. -/
theorem compressHash_total_iff_positive (h : Hash) (newSize : Nat) (h1 : 1 ≤ newSize) :
    compressHashChecked h newSize = some (compressHash h newSize) ∧
    (compressHash h newSize).type = h.type ∧
    (compressHash h newSize).hashSize = newSize ∧
    (∀ i, newSize ≤ i → (compressHash h newSize).hash.getD i 0 = 0) ∧
    (1 ≤ h.hashSize → compressHashChecked h 0 = none) := by
  refine ⟨?_, rfl, rfl, ?_, ?_⟩
  · have heq := compressChecked_fold_eq h newSize h1 h.hashSize (List.replicate maxHashSize 0)
    simp only [compressHashChecked, Hash.ofType, bind, Option.bind] at *
    rw [heq]
    rfl
  · intro i hi
    have hbufeq : (compressHash h newSize).hash
        = (List.range h.hashSize).foldl
            (fun buf i =>
              buf.set (i % newSize)
                ((buf.getD (i % newSize) 0 ^^^ h.hash.getD i 0) &&& 0xff))
            (List.replicate maxHashSize 0) := rfl
    rw [hbufeq]
    exact compress_fold_zero_above h newSize h1 i hi h.hashSize
      (List.replicate maxHashSize 0) (getD_replicate_zero _ _)
  · intro hsz
    obtain ⟨k, hk⟩ : ∃ k, h.hashSize = k + 1 := ⟨h.hashSize - 1, by omega⟩
    simp only [compressHashChecked, hk, List.range_succ_eq_map]
    simp [List.foldlM_cons]

/-- C10 witness: the compression of a concrete hash to 5 bytes. -/
theorem compressHash_total_iff_positive_witness :
    compressHashChecked (Hash.ofBytes .md5 (List.range 16)) 5
      = some (compressHash (Hash.ofBytes .md5 (List.range 16)) 5) ∧
    (compressHash (Hash.ofBytes .md5 (List.range 16)) 5).type = .md5 ∧
    (compressHash (Hash.ofBytes .md5 (List.range 16)) 5).hashSize = 5 ∧
    (∀ i, 5 ≤ i →
      (compressHash (Hash.ofBytes .md5 (List.range 16)) 5).hash.getD i 0 = 0) ∧
    (1 ≤ (Hash.ofBytes .md5 (List.range 16)).hashSize →
      compressHashChecked (Hash.ofBytes .md5 (List.range 16)) 0 = none) :=
  compressHash_total_iff_positive (Hash.ofBytes .md5 (List.range 16)) 5 (by decide)

/-! ## Bitwise bridge lemmas -/

theorem and_3_eq (x : Nat) : x &&& 3 = x % 4 := Nat.and_pow_two_sub_one_eq_mod x 2
theorem and_15_eq (x : Nat) : x &&& 15 = x % 16 := Nat.and_pow_two_sub_one_eq_mod x 4
theorem and_63_eq (x : Nat) : x &&& 63 = x % 64 := Nat.and_pow_two_sub_one_eq_mod x 6

theorem lor_shiftLeft_eq_add (b k a : Nat) (h : a < 2 ^ k) :
    (b <<< k) ||| a = b * 2 ^ k + a := by
  apply Nat.eq_of_testBit_eq
  intro j
  rw [Nat.testBit_lor, Nat.testBit_shiftLeft,
    show b * 2 ^ k + a = 2 ^ k * b + a by ring,
    Nat.testBit_mul_pow_two_add b h j]
  rcases Nat.lt_or_ge j k with hj | hj
  · simp [hj, Nat.not_le.2 hj]
  · have ha : a < 2 ^ j := lt_of_lt_of_le h (Nat.pow_le_pow_right (by omega) hj)
    simp [hj, Nat.not_lt.2 hj, Nat.testBit_lt_two_pow ha]

theorem lor_mul_pow_eq_add (b k a : Nat) (h : a < 2 ^ k) :
    (b * 2 ^ k) ||| a = b * 2 ^ k + a := by
  conv_lhs => rw [← Nat.shiftLeft_eq]
  exact lor_shiftLeft_eq_add b k a h

theorem lor_comm_mul_pow_eq_add (a b k : Nat) (h : a < 2 ^ k) :
    a ||| (b * 2 ^ k) = b * 2 ^ k + a := by
  rw [Nat.lor_comm]; exact lor_mul_pow_eq_add b k a h

theorem mod_mul_decomp (x a b : Nat) (ha : 0 < a) (hb : 0 < b) :
    x % (a * b) = x % a + a * (x / a % b) := by
  have e2 : b * (x / a / b) + x / a % b = x / a := Nat.div_add_mod (x / a) b
  have h1 : x = (a * (x / a % b) + x % a) + a * b * (x / a / b) := by
    calc x = a * (x / a) + x % a := (Nat.div_add_mod x a).symm
    _ = a * (b * (x / a / b) + x / a % b) + x % a := by rw [e2]
    _ = (a * (x / a % b) + x % a) + a * b * (x / a / b) := by ring
  have h4 : a * (x / a % b) + x % a < a * b := by
    have h5 : x / a % b < b := Nat.mod_lt _ hb
    have h6 : x % a < a := Nat.mod_lt _ ha
    have h7 : a * (x / a % b + 1) ≤ a * b := Nat.mul_le_mul_left a (by omega)
    rw [Nat.mul_add, Nat.mul_one] at h7
    omega
  conv_lhs => rw [h1]
  rw [Nat.add_mul_mod_self_left]
  rw [Nat.mod_eq_of_lt h4]
  omega

theorem add_mul_pow_div_mod (W c a b : Nat) (h : b + 8 ≤ a) :
    (W + c * 2 ^ a) / 2 ^ b % 256 = W / 2 ^ b % 256 := by
  have ha : 2 ^ a = 2 ^ b * (256 * 2 ^ (a - b - 8)) := by
    have h256 : (256 : Nat) = 2 ^ 8 := by norm_num
    rw [h256, ← pow_add, ← pow_add]
    congr 1
    omega
  rw [ha, show W + c * (2 ^ b * (256 * 2 ^ (a - b - 8)))
      = W + 2 ^ b * (c * (256 * 2 ^ (a - b - 8))) by ring,
    Nat.add_mul_div_left _ _ (Nat.two_pow_pos b),
    show c * (256 * 2 ^ (a - b - 8)) = 256 * (c * 2 ^ (a - b - 8)) by ring]
  rw [Nat.add_mul_mod_self_left]

/-! ## Byte-value lemmas -/

theorem byteVal_lt (bs : List Nat) (hb : ∀ b ∈ bs, b < 256) :
    byteVal bs < 2 ^ (8 * bs.length) := by
  induction bs with
  | nil => simp [byteVal]
  | cons b tl ih =>
    have hb0 : b < 256 := hb b (by simp)
    have htl := ih (fun x hx => hb x (by simp [hx]))
    simp only [byteVal, List.length_cons]
    rw [show 8 * (tl.length + 1) = 8 * tl.length + 8 by ring, pow_add]
    have h2 : 256 * (byteVal tl + 1) ≤ 256 * 2 ^ (8 * tl.length) :=
      Nat.mul_le_mul_left 256 (by omega)
    rw [Nat.mul_add, Nat.mul_one] at h2
    have h3 : (2 : Nat) ^ 8 = 256 := by norm_num
    omega

theorem byteVal_getD (bs : List Nat) (hb : ∀ b ∈ bs, b < 256) (i : Nat) :
    bs.getD i 0 = byteVal bs / 2 ^ (8 * i) % 256 := by
  induction bs generalizing i with
  | nil => simp [byteVal, List.getD]
  | cons b tl ih =>
    have hb0 : b < 256 := hb b (by simp)
    cases i with
    | zero =>
      simp only [byteVal, List.getD_cons_zero, Nat.mul_zero, pow_zero, Nat.div_one]
      omega
    | succ n =>
      rw [List.getD_cons_succ, ih (fun x hx => hb x (by simp [hx])) n]
      congr 1
      simp only [byteVal]
      rw [show 8 * (n + 1) = 8 + 8 * n by ring, pow_add,
        ← Nat.div_div_eq_div_mul]
      congr 1
      rw [show (2 : Nat) ^ 8 = 256 by norm_num]
      rw [Nat.add_mul_div_left _ _ (by omega : (0:Nat) < 256),
        Nat.div_eq_of_lt hb0]
      omega

theorem getD_append_pad (bs : List Nat) (k i : Nat) :
    (bs ++ List.replicate k 0).getD i 0 = bs.getD i 0 := by
  rw [List.getD_eq_getElem?_getD, List.getD_eq_getElem?_getD, List.getElem?_append]
  rcases Nat.lt_or_ge i bs.length with hi | hi
  · rw [if_pos hi]
  · rw [if_neg (by omega), List.getElem?_replicate, List.getElem?_eq_none hi]
    split <;> rfl

theorem byteListOf_length (x : Nat) : (byteListOf x).length = maxHashSize := by
  simp [byteListOf]

theorem getD_byteListOf (x r : Nat) (hr : r < maxHashSize) :
    (byteListOf x).getD r 0 = x / 2 ^ (8 * r) % 256 := by
  rw [byteListOf, List.getD_eq_getElem?_getD, List.getElem?_map,
    List.getElem?_range (by simpa using hr)]
  rfl

theorem list_eq_of_getD (l₁ l₂ : List Nat) (hl : l₁.length = l₂.length)
    (h : ∀ r, r < l₁.length → l₁.getD r 0 = l₂.getD r 0) : l₁ = l₂ := by
  apply List.ext_getElem hl
  intro r h1 h2
  have := h r h1
  rwa [List.getD_eq_getElem?_getD, List.getD_eq_getElem?_getD,
    List.getElem?_eq_getElem h1, List.getElem?_eq_getElem h2] at this

theorem byteListOf_zero : byteListOf 0 = List.replicate maxHashSize 0 := by
  apply list_eq_of_getD
  · simp [byteListOf]
  · intro r hr
    rw [byteListOf_length] at hr
    rw [getD_byteListOf 0 r hr, Nat.zero_div, Nat.zero_mod, getD_replicate_zero]

/-! ## Base-16 round-trip -/

theorem hexDigit_of_base16Char : ∀ d, d < 16 → parseHexDigit (base16Chars.getD d ' ') = .ok d := by
  decide

set_option maxRecDepth 4096 in
theorem hex_pair_byte : ∀ b, b < 256 → (((b >>> 4) <<< 4) ||| (b &&& 0xf)) &&& 0xff = b := by
  decide

theorem parseBase16_flatMap (bs : List Nat) (hb : ∀ b ∈ bs, b < 256) :
    parseBase16 (bs.flatMap fun b =>
      [base16Chars.getD (b >>> 4) ' ', base16Chars.getD (b &&& 0x0f) ' ']) = .ok bs := by
  induction bs with
  | nil => rfl
  | cons b tl ih =>
    have hb0 : b < 256 := hb b (by simp)
    have h1 : parseHexDigit (base16Chars.getD (b >>> 4) ' ') = .ok (b >>> 4) :=
      hexDigit_of_base16Char _ (by rw [Nat.shiftRight_eq_div_pow]; omega)
    have h2 : parseHexDigit (base16Chars.getD (b &&& 0xf) ' ') = .ok (b &&& 0xf) :=
      hexDigit_of_base16Char _ (by rw [and_15_eq]; omega)
    have h3 := ih (fun x hx => hb x (by simp [hx]))
    rw [List.flatMap_cons]
    simp only [List.cons_append, List.nil_append]
    show (do
      let hi ← parseHexDigit (base16Chars.getD (b >>> 4) ' ')
      let lo ← parseHexDigit (base16Chars.getD (b &&& 0x0f) ' ')
      let tl' ← parseBase16 (tl.flatMap fun b =>
        [base16Chars.getD (b >>> 4) ' ', base16Chars.getD (b &&& 0x0f) ' '])
      Except.ok ((((hi <<< 4) ||| lo) &&& 0xff) :: tl')) = Except.ok (b :: tl)
    rw [h1, h2, h3]
    show Except.ok ((((b >>> 4 <<< 4) ||| (b &&& 0xf)) &&& 0xff) :: tl) = Except.ok (b :: tl)
    rw [hex_pair_byte b hb0]

theorem length_flatMap_pair (f g : Nat → Char) (bs : List Nat) :
    (bs.flatMap fun b => [f b, g b]).length = 2 * bs.length := by
  induction bs with
  | nil => rfl
  | cons b tl ih =>
    rw [List.flatMap_cons]
    simp only [List.cons_append, List.nil_append, List.length_cons, ih, List.length_cons]
    omega

theorem printHash16_ofBytes (t : HashType) (bs : List Nat) :
    printHash16 (Hash.ofBytes t bs)
      = bs.flatMap fun b => [base16Chars.getD (b >>> 4) ' ', base16Chars.getD (b &&& 0x0f) ' '] := by
  rw [printHash16]
  show ((bs ++ List.replicate (maxHashSize - bs.length) 0).take bs.length).flatMap _ = _
  rw [List.take_left' rfl]

theorem base16Char_mem : ∀ d, d < 16 → base16Chars.getD d ' ' ∈ base16Chars := by
  decide

theorem printHash16_chars (t : HashType) (bs : List Nat) (hb : ∀ b ∈ bs, b < 256) :
    ∀ ch ∈ printHash16 (Hash.ofBytes t bs), ch ∈ base16Chars := by
  rw [printHash16_ofBytes]
  intro ch hch
  rw [List.mem_flatMap] at hch
  obtain ⟨b, hbmem, hch⟩ := hch
  have hb0 : b < 256 := hb b hbmem
  rw [List.mem_cons, List.mem_singleton] at hch
  rcases hch with h | h
  · exact h ▸ base16Char_mem _ (by rw [Nat.shiftRight_eq_div_pow]; omega)
  · exact h ▸ base16Char_mem _ (by rw [and_15_eq]; omega)

/-! ## Base-64 round-trip -/

theorem base64DigitOf_char : ∀ d, d < 64 → base64DigitOf (base64Chars.getD d ' ') = some d := by
  decide

theorem base64Char_ne_pad : ∀ d, d < 64 → ¬(base64Chars.getD d ' ' = '=') := by
  decide

theorem base64Char_mem : ∀ d, d < 64 → base64Chars.getD d ' ' ∈ base64Chars := by
  decide

theorem lor_mul16 (x y : Nat) (h : y < 16) : x * 16 ||| y = x * 16 + y := by
  have h2 := lor_mul_pow_eq_add x 4 y (by simpa using h)
  simpa using h2

theorem lor_mul4 (x y : Nat) (h : y < 4) : x * 4 ||| y = x * 4 + y := by
  have h2 := lor_mul_pow_eq_add x 2 y (by simpa using h)
  simpa using h2

theorem lor_mul64 (x y : Nat) (h : y < 64) : x * 64 ||| y = x * 64 + y := by
  have h2 := lor_mul_pow_eq_add x 6 y (by simpa using h)
  simpa using h2

theorem shiftRight2_eq (a : Nat) : a >>> 2 = a / 4 := by
  rw [Nat.shiftRight_eq_div_pow]

theorem shiftRight4_eq (a : Nat) : a >>> 4 = a / 16 := by
  rw [Nat.shiftRight_eq_div_pow]

theorem shiftRight6_eq (a : Nat) : a >>> 6 = a / 64 := by
  rw [Nat.shiftRight_eq_div_pow]

theorem base64_d2_eq (a b : Nat) (hb : b < 256) :
    ((a &&& 0x3) <<< 4) ||| (b >>> 4) = (a % 4) * 16 + b / 16 := by
  rw [and_3_eq, Nat.shiftLeft_eq, shiftRight4_eq]
  show a % 4 * 2 ^ 4 ||| b / 16 = a % 4 * 16 + b / 16
  have : (2 : Nat) ^ 4 = 16 := by norm_num
  rw [this]
  exact lor_mul16 _ _ (by omega)

theorem base64_d3_eq (b c : Nat) (hc : c < 256) :
    ((b &&& 0xf) <<< 2) ||| (c >>> 6) = (b % 16) * 4 + c / 64 := by
  rw [and_15_eq, Nat.shiftLeft_eq, shiftRight6_eq]
  show b % 16 * 2 ^ 2 ||| c / 64 = b % 16 * 4 + c / 64
  have : (2 : Nat) ^ 2 = 4 := by norm_num
  rw [this]
  exact lor_mul4 _ _ (by omega)

theorem base64_byte1 (a b : Nat) (ha : a < 256) (hb : b < 256) :
    (((a >>> 2) <<< 2) ||| ((((a &&& 0x3) <<< 4) ||| (b >>> 4)) >>> 4)) &&& 0xff = a := by
  rw [base64_d2_eq a b hb, shiftRight4_eq (a % 4 * 16 + b / 16), shiftRight2_eq,
    Nat.shiftLeft_eq]
  have h4 : (2 : Nat) ^ 2 = 4 := by norm_num
  rw [h4]
  have h5 : (a % 4 * 16 + b / 16) / 16 = a % 4 := by omega
  rw [h5, lor_mul4 _ _ (by omega), and_255_eq]
  omega

theorem base64_byte2 (a b c : Nat) (hb : b < 256) (hc : c < 256) :
    (((((a &&& 0x3) <<< 4) ||| (b >>> 4)) &&& 0xf) <<< 4 |||
      ((((b &&& 0xf) <<< 2) ||| (c >>> 6)) >>> 2)) &&& 0xff = b := by
  rw [base64_d2_eq a b hb, base64_d3_eq b c hc, shiftRight2_eq (b % 16 * 4 + c / 64),
    and_15_eq, Nat.shiftLeft_eq]
  have h16 : (2 : Nat) ^ 4 = 16 := by norm_num
  rw [h16]
  have h5 : (a % 4 * 16 + b / 16) % 16 = b / 16 := by omega
  have h6 : (b % 16 * 4 + c / 64) / 4 = b % 16 := by omega
  rw [h5, h6, lor_mul16 _ _ (by omega), and_255_eq]
  omega

theorem base64_byte3 (b c : Nat) (hc : c < 256) :
    (((((b &&& 0xf) <<< 2) ||| (c >>> 6)) &&& 0x3) <<< 6 ||| (c &&& 0x3f)) &&& 0xff = c := by
  rw [base64_d3_eq b c hc, and_3_eq, and_63_eq, Nat.shiftLeft_eq]
  have h64 : (2 : Nat) ^ 6 = 64 := by norm_num
  rw [h64]
  have h5 : (b % 16 * 4 + c / 64) % 4 = c / 64 := by omega
  rw [h5, lor_mul64 _ _ (by omega), and_255_eq]
  omega

theorem base64_d2_lt (a b : Nat) (ha : a < 256) (hb : b < 256) :
    ((a &&& 0x3) <<< 4) ||| (b >>> 4) < 64 := by
  rw [base64_d2_eq a b hb]; omega

theorem base64_d3_lt (b c : Nat) (hb : b < 256) (hc : c < 256) :
    ((b &&& 0xf) <<< 2) ||| (c >>> 6) < 64 := by
  rw [base64_d3_eq b c hc]; omega

theorem base64_d1_lt (a : Nat) (ha : a < 256) : a >>> 2 < 64 := by
  rw [shiftRight2_eq]; omega

theorem base64_d4_lt (c : Nat) : c &&& 0x3f < 64 := by
  rw [and_63_eq]; omega

theorem base64_pad_d2_lt (a : Nat) : (a &&& 0x3) <<< 4 < 64 := by
  rw [and_3_eq, Nat.shiftLeft_eq]
  have h : (2:Nat) ^ 4 = 16 := by norm_num
  rw [h]; omega

theorem base64_pad_d3_lt (b : Nat) : (b &&& 0xf) <<< 2 < 64 := by
  rw [and_15_eq, Nat.shiftLeft_eq]
  have h : (2:Nat) ^ 2 = 4 := by norm_num
  rw [h]; omega

theorem base64_pad1 (a : Nat) (ha : a < 256) :
    (((a >>> 2) <<< 2) ||| (((a &&& 0x3) <<< 4) >>> 4)) &&& 0xff = a := by
  have h1 : ((a &&& 0x3) <<< 4) >>> 4 = a % 4 := by
    rw [and_3_eq, Nat.shiftLeft_eq, shiftRight4_eq]
    have h : (2:Nat) ^ 4 = 16 := by norm_num
    rw [h]; omega
  rw [h1, shiftRight2_eq, Nat.shiftLeft_eq]
  have h : (2:Nat) ^ 2 = 4 := by norm_num
  rw [h, lor_mul4 _ _ (by omega), and_255_eq]
  omega

theorem base64_pad2 (a b : Nat) (hb : b < 256) :
    (((((a &&& 0x3) <<< 4) ||| (b >>> 4)) &&& 0xf) <<< 4 |||
      (((b &&& 0xf) <<< 2) >>> 2)) &&& 0xff = b := by
  have h1 : ((b &&& 0xf) <<< 2) >>> 2 = b % 16 := by
    rw [and_15_eq, Nat.shiftLeft_eq, shiftRight2_eq]
    have h : (2:Nat) ^ 2 = 4 := by norm_num
    rw [h]; omega
  rw [base64_d2_eq a b hb, h1, and_15_eq, Nat.shiftLeft_eq]
  have h : (2:Nat) ^ 4 = 16 := by norm_num
  rw [h]
  have h5 : (a % 4 * 16 + b / 16) % 16 = b / 16 := by omega
  rw [h5, lor_mul16 _ _ (by omega), and_255_eq]
  omega

theorem base64_pad1_reduced (a : Nat) (ha : a < 256) :
    ((a >>> 2 <<< 2) ||| (a &&& 3)) &&& 255 = a := by
  rw [shiftRight2_eq, Nat.shiftLeft_eq, and_3_eq]
  have h4 : (2:Nat) ^ 2 = 4 := by norm_num
  rw [h4, lor_mul4 _ _ (by omega), and_255_eq]
  omega

theorem base64_pad2_reduced (a b : Nat) (hb : b < 256) :
    ((((a &&& 3) <<< 4 ||| b >>> 4) &&& 15) <<< 4 ||| (b &&& 15)) &&& 255 = b := by
  rw [base64_d2_eq a b hb, and_15_eq (a % 4 * 16 + b / 16)]
  have h5 : (a % 4 * 16 + b / 16) % 16 = b / 16 := by omega
  rw [h5, Nat.shiftLeft_eq]
  have h16 : (2:Nat) ^ 4 = 16 := by norm_num
  rw [h16, and_15_eq b, lor_mul16 _ _ (by omega), and_255_eq]
  omega

theorem base64_roundtrip : ∀ (bs : List Nat), (∀ x ∈ bs, x < 256) →
    base64Decode (base64Encode bs) = some bs
  | [], _ => rfl
  | [a], hb => by
    have ha : a < 256 := hb a (by simp)
    have h1 := base64DigitOf_char _ (base64_d1_lt a ha)
    have h2 := base64DigitOf_char _ (base64_pad_d2_lt a)
    simp only [List.getD_eq_getElem?_getD] at h1 h2
    simp [base64Encode, base64Decode, h1, h2, base64_pad1_reduced a ha]
  | [a, b], hb => by
    have ha : a < 256 := hb a (by simp)
    have hbb : b < 256 := hb b (by simp)
    have h1 := base64DigitOf_char _ (base64_d1_lt a ha)
    have h2 := base64DigitOf_char _ (base64_d2_lt a b ha hbb)
    have h3 := base64DigitOf_char _ (base64_pad_d3_lt b)
    have hne3 : ¬(base64Chars.getD ((b &&& 0xf) <<< 2) ' ' = '=') :=
      base64Char_ne_pad _ (base64_pad_d3_lt b)
    simp only [List.getD_eq_getElem?_getD] at h1 h2 h3 hne3
    simp [base64Encode, base64Decode, h1, h2, h3, hne3,
      base64_byte1 a b ha hbb, base64_pad2_reduced a b hbb]
  | a :: b :: c :: rest, hb => by
    have ha : a < 256 := hb a (by simp)
    have hbb : b < 256 := hb b (by simp)
    have hc : c < 256 := hb c (by simp)
    have ih := base64_roundtrip rest (fun x hx => hb x (by simp [hx]))
    have h1 := base64DigitOf_char _ (base64_d1_lt a ha)
    have h2 := base64DigitOf_char _ (base64_d2_lt a b ha hbb)
    have h3 := base64DigitOf_char _ (base64_d3_lt b c hbb hc)
    have h4 := base64DigitOf_char _ (base64_d4_lt c)
    have hne3 : ¬(base64Chars.getD (((b &&& 0xf) <<< 2) ||| (c >>> 6)) ' ' = '=') :=
      base64Char_ne_pad _ (base64_d3_lt b c hbb hc)
    have hne4 : ¬(base64Chars.getD (c &&& 0x3f) ' ' = '=') :=
      base64Char_ne_pad _ (base64_d4_lt c)
    simp only [List.getD_eq_getElem?_getD] at h1 h2 h3 h4 hne3 hne4
    simp [base64Encode, base64Decode, h1, h2, h3, h4, hne3, hne4, ih,
      base64_byte1 a b ha hbb, base64_byte2 a b c hbb hc, base64_byte3 b c hc]
termination_by bs => bs.length

theorem base64Encode_length : ∀ (bs : List Nat),
    (base64Encode bs).length = 4 * ((bs.length + 2) / 3)
  | [] => rfl
  | [_] => by simp [base64Encode]
  | [_, _] => by simp [base64Encode]
  | _ :: _ :: _ :: rest => by
    have ih := base64Encode_length rest
    simp only [base64Encode, List.length_cons, ih]
    omega
termination_by bs => bs.length

theorem base64Encode_chars : ∀ (bs : List Nat), (∀ x ∈ bs, x < 256) →
    ∀ ch ∈ base64Encode bs, ch ∈ base64Chars ∨ ch = '='
  | [], _ => by intro ch hch; cases hch
  | [a], hb => by
    have ha : a < 256 := hb a (by simp)
    intro ch hch
    simp only [base64Encode, List.mem_cons, List.not_mem_nil, or_false] at hch
    rcases hch with h | h | h | h
    · exact .inl (h ▸ base64Char_mem _ (base64_d1_lt a ha))
    · exact .inl (h ▸ base64Char_mem _ (base64_pad_d2_lt a))
    · exact .inr h
    · exact .inr h
  | [a, b], hb => by
    have ha : a < 256 := hb a (by simp)
    have hbb : b < 256 := hb b (by simp)
    intro ch hch
    simp only [base64Encode, List.mem_cons, List.not_mem_nil, or_false] at hch
    rcases hch with h | h | h | h
    · exact .inl (h ▸ base64Char_mem _ (base64_d1_lt a ha))
    · exact .inl (h ▸ base64Char_mem _ (base64_d2_lt a b ha hbb))
    · exact .inl (h ▸ base64Char_mem _ (base64_pad_d3_lt b))
    · exact .inr h
  | a :: b :: c :: rest, hb => by
    have ha : a < 256 := hb a (by simp)
    have hbb : b < 256 := hb b (by simp)
    have hc : c < 256 := hb c (by simp)
    have ih := base64Encode_chars rest (fun x hx => hb x (by simp [hx]))
    intro ch hch
    simp only [base64Encode, List.mem_cons] at hch
    rcases hch with h | h | h | h | h
    · exact .inl (h ▸ base64Char_mem _ (base64_d1_lt a ha))
    · exact .inl (h ▸ base64Char_mem _ (base64_d2_lt a b ha hbb))
    · exact .inl (h ▸ base64Char_mem _ (base64_d3_lt b c hbb hc))
    · exact .inl (h ▸ base64Char_mem _ (base64_d4_lt c))
    · exact ih ch h
termination_by bs => bs.length

/-! ## Base-32 round-trip -/

theorem base32_findIdx : ∀ d, d < 32 →
    base32Chars.findIdx (· = base32Chars.getD d ' ') = d := by
  decide

theorem base32Char_getD_mem : ∀ d, d < 32 → base32Chars.getD d ' ' ∈ base32Chars := by
  decide

theorem base32_digit_lt (V m : Nat) : V / 2 ^ (m * 5) % 32 < 32 :=
  Nat.mod_lt _ (by norm_num)

theorem byte_pair_group (A j : Nat) (hj : j < 8) :
    ((((A % 256) >>> j) ||| ((A / 256 % 256) <<< (8 - j))) &&& 0xff) &&& 0x1f
      = A / 2 ^ j % 32 := by
  rw [Nat.and_assoc]
  have h1 : (0xff &&& 0x1f : Nat) = 0x1f := by decide
  rw [h1, Nat.shiftRight_eq_div_pow, Nat.shiftLeft_eq, and_31_eq]
  have hlt : A % 256 / 2 ^ j < 2 ^ (8 - j) := by
    apply Nat.div_lt_of_lt_mul
    calc A % 256 < 256 := Nat.mod_lt _ (by norm_num)
    _ = 2 ^ j * 2 ^ (8 - j) := by
        rw [← pow_add, show j + (8 - j) = 8 by omega]; norm_num
  rw [lor_comm_mul_pow_eq_add _ _ _ hlt]
  interval_cases j <;> omega

theorem base32_digit_extract (bs : List Nat) (hb : ∀ x ∈ bs, x < 256)
    (hn1 : 1 ≤ bs.length) (m : Nat) :
    (((bs.getD (m * 5 / 8) 0 >>> (m * 5 % 8)) |||
       (if bs.length - 1 ≤ m * 5 / 8 then 0
        else bs.getD (m * 5 / 8 + 1) 0 <<< (8 - m * 5 % 8)))
      &&& 0xff) &&& 0x1f
    = byteVal bs / 2 ^ (m * 5) % 32 := by
  have hguard : (if bs.length - 1 ≤ m * 5 / 8 then 0
      else bs.getD (m * 5 / 8 + 1) 0 <<< (8 - m * 5 % 8))
      = bs.getD (m * 5 / 8 + 1) 0 <<< (8 - m * 5 % 8) := by
    split
    · next hcase =>
      have hbeyond : bs.length ≤ m * 5 / 8 + 1 := by omega
      rw [List.getD_eq_default _ _ hbeyond, Nat.zero_shiftLeft]
    · rfl
  rw [hguard, byteVal_getD bs hb (m * 5 / 8), byteVal_getD bs hb (m * 5 / 8 + 1)]
  have hnext : byteVal bs / 2 ^ (8 * (m * 5 / 8 + 1))
      = byteVal bs / 2 ^ (8 * (m * 5 / 8)) / 256 := by
    rw [show 8 * (m * 5 / 8 + 1) = 8 * (m * 5 / 8) + 8 by ring, pow_add,
      ← Nat.div_div_eq_div_mul]
    norm_num
  rw [hnext]
  have htarget : byteVal bs / 2 ^ (m * 5)
      = byteVal bs / 2 ^ (8 * (m * 5 / 8)) / 2 ^ (m * 5 % 8) := by
    have hexp : 8 * (m * 5 / 8) + m * 5 % 8 = m * 5 := by omega
    rw [Nat.div_div_eq_div_mul, ← pow_add, hexp]
  rw [htarget]
  exact byte_pair_group _ _ (Nat.mod_lt _ (by norm_num))

theorem printHash32Char_ofBytes (t : HashType) (bs : List Nat) (hb : ∀ x ∈ bs, x < 256)
    (hn1 : 1 ≤ bs.length) (m : Nat) :
    printHash32Char (Hash.ofBytes t bs) m
      = base32Chars.getD (byteVal bs / 2 ^ (m * 5) % 32) ' ' := by
  simp only [printHash32Char, Hash.ofBytes, getD_append_pad]
  rw [base32_digit_extract bs hb hn1 m]

theorem printHash32_ofBytes_length (t : HashType) (bs : List Nat) :
    (printHash32 (Hash.ofBytes t bs)).length = (8 * bs.length + 4) / 5 := by
  simp [printHash32, Hash.base32Len, Hash.ofBytes]

theorem printHash32_ofBytes_getD (t : HashType) (bs : List Nat) (hb : ∀ x ∈ bs, x < 256)
    (hn1 : 1 ≤ bs.length) (m : Nat) (hm : m < (8 * bs.length + 4) / 5) :
    (printHash32 (Hash.ofBytes t bs)).getD ((8 * bs.length + 4) / 5 - 1 - m) ' '
      = base32Chars.getD (byteVal bs / 2 ^ (m * 5) % 32) ' ' := by
  have hL : (Hash.ofBytes t bs).base32Len = (8 * bs.length + 4) / 5 := rfl
  rw [printHash32, hL, getD_reverse_map_range _ _ _ hm,
    printHash32Char_ofBytes t bs hb hn1 m]

theorem byte_i_update (W d i j : Nat) (hA : W / 2 ^ (8 * i) < 2 ^ j) (hj : j < 8) :
    ((W / 2 ^ (8 * i) % 256) ||| (d <<< j)) &&& 255
      = (W + d * 2 ^ (8 * i + j)) / 2 ^ (8 * i) % 256 := by
  have hA256 : W / 2 ^ (8 * i) < 256 := by
    have h2 : (2:Nat) ^ j ≤ 256 := by
      calc (2:Nat) ^ j ≤ 2 ^ 8 := Nat.pow_le_pow_right (by norm_num) (by omega)
      _ = 256 := by norm_num
    omega
  rw [Nat.mod_eq_of_lt hA256, Nat.lor_comm, lor_shiftLeft_eq_add _ _ _ hA,
    pow_add, show d * (2 ^ (8 * i) * 2 ^ j) = d * 2 ^ j * 2 ^ (8 * i) from by ring,
    Nat.add_mul_div_right _ _ (Nat.two_pow_pos (8 * i)), and_255_eq]
  omega

theorem byte_i1_update (W d i j : Nat) (hW : W < 2 ^ (8 * i + j)) (hd : d < 32)
    (hj : j < 8) :
    ((W / 2 ^ (8 * (i + 1)) % 256) ||| (d >>> (8 - j))) &&& 255
      = (W + d * 2 ^ (8 * i + j)) / 2 ^ (8 * (i + 1)) % 256 := by
  have hzero : W / 2 ^ (8 * (i + 1)) = 0 :=
    Nat.div_eq_of_lt (lt_of_lt_of_le hW (Nat.pow_le_pow_right (by norm_num) (by omega)))
  rw [hzero]
  simp only [Nat.zero_mod, Nat.zero_or]
  rw [Nat.shiftRight_eq_div_pow, and_255_eq]
  have hdd : d / 2 ^ (8 - j) < 256 := by
    have := Nat.div_le_self d (2 ^ (8 - j))
    omega
  rw [Nat.mod_eq_of_lt hdd]
  have hA : W / 2 ^ (8 * i) < 2 ^ j := by
    apply Nat.div_lt_of_lt_mul
    calc W < 2 ^ (8 * i + j) := hW
    _ = 2 ^ (8 * i) * 2 ^ j := pow_add 2 _ _
  have hQ : (W + d * 2 ^ (8 * i + j)) / 2 ^ (8 * (i + 1))
      = (W / 2 ^ (8 * i) + d * 2 ^ j) / 256 := by
    rw [show 8 * (i + 1) = 8 * i + 8 by ring]
    rw [pow_add 2 (8 * i) 8, ← Nat.div_div_eq_div_mul,
      show (2:Nat) ^ 8 = 256 by norm_num,
      pow_add 2 (8 * i) j,
      show d * (2 ^ (8 * i) * 2 ^ j) = d * 2 ^ j * 2 ^ (8 * i) from by ring,
      Nat.add_mul_div_right _ _ (Nat.two_pow_pos (8 * i))]
  rw [hQ]
  generalize hAA : W / 2 ^ (8 * i) = A at hA ⊢
  interval_cases j <;> omega

theorem parseBase32Step_ok (size : Nat) (rest : List Char) (V m : Nat)
    (hV : V < 2 ^ (8 * size)) (hn1 : 1 ≤ size) (hn64 : size ≤ maxHashSize)
    (hm : m < (8 * size + 4) / 5)
    (hc : rest.getD (rest.length - m - 1) ' '
      = base32Chars.getD (V / 2 ^ (m * 5) % 32) ' ') :
    parseBase32Step size rest (byteListOf (V % 2 ^ (m * 5))) m
      = .ok (byteListOf (V % 2 ^ (m * 5 + 5))) := by
  have hd32 : V / 2 ^ (m * 5) % 32 < 32 := base32_digit_lt V m
  have h64 : maxHashSize = 64 := rfl
  have h5m : m * 5 < 8 * size := by omega
  have hilt : m * 5 / 8 < size := by omega
  have hij : 8 * (m * 5 / 8) + m * 5 % 8 = m * 5 := by omega
  have hj8 : m * 5 % 8 < 8 := by omega
  have hWlt : V % 2 ^ (m * 5) < 2 ^ (8 * (m * 5 / 8) + m * 5 % 8) := by
    rw [hij]; exact Nat.mod_lt _ (Nat.two_pow_pos _)
  have hW' : V % 2 ^ (m * 5 + 5)
      = V % 2 ^ (m * 5) + V / 2 ^ (m * 5) % 32 * 2 ^ (m * 5) := by
    rw [pow_add, show (2:Nat) ^ 5 = 32 by norm_num,
      mod_mul_decomp V (2 ^ (m * 5)) 32 (Nat.two_pow_pos _) (by norm_num)]
    ring
  have h2pow : (2:Nat) ^ (8 * (m * 5 / 8) + m * 5 % 8) = 2 ^ (m * 5) := by rw [hij]
  have hW'2 : V % 2 ^ (m * 5 + 5)
      = V % 2 ^ (m * 5)
        + V / 2 ^ (m * 5) % 32 * 2 ^ (8 * (m * 5 / 8) + m * 5 % 8) := by
    rw [h2pow]; exact hW'
  have hA : V % 2 ^ (m * 5) / 2 ^ (8 * (m * 5 / 8)) < 2 ^ (m * 5 % 8) := by
    apply Nat.div_lt_of_lt_mul
    calc V % 2 ^ (m * 5) < 2 ^ (8 * (m * 5 / 8) + m * 5 % 8) := hWlt
    _ = 2 ^ (8 * (m * 5 / 8)) * 2 ^ (m * 5 % 8) := pow_add 2 _ _
  simp only [parseBase32Step, hc, base32_findIdx _ hd32]
  rw [if_neg (by omega)]
  rw [getD_byteListOf _ _ (by omega)]
  rw [byte_i_update _ _ _ _ hA hj8]
  by_cases hcase : m * 5 / 8 < size - 1
  · rw [if_pos hcase]
    rw [getD_set_ne _ _ _ _ (by omega)]
    rw [getD_byteListOf _ _ (by omega)]
    rw [byte_i1_update _ _ _ _ hWlt hd32 hj8]
    congr 1
    apply list_eq_of_getD
    · simp [byteListOf_length]
    · intro r hr
      simp only [List.length_set, byteListOf_length] at hr
      rcases eq_or_ne r (m * 5 / 8 + 1) with rfl | hne1
      · rw [getD_set_self _ _ _ (by simp [byteListOf_length]; exact hr),
          getD_byteListOf _ _ hr, ← hW'2]
      · rw [getD_set_ne _ _ _ _ (Ne.symm hne1)]
        rcases eq_or_ne r (m * 5 / 8) with rfl | hne2
        · rw [getD_set_self _ _ _ (by rw [byteListOf_length]; exact hr),
            getD_byteListOf _ _ hr, ← hW'2]
        · rw [getD_set_ne _ _ _ _ (Ne.symm hne2), getD_byteListOf _ _ hr,
            getD_byteListOf _ _ hr]
          rcases Nat.lt_or_ge r (m * 5 / 8) with hri | hri
          · rw [hW'2, add_mul_pow_div_mod _ _ _ _ (by omega)]
          · have hr2 : m * 5 / 8 + 2 ≤ r := by omega
            have hz1 : V % 2 ^ (m * 5) / 2 ^ (8 * r) = 0 :=
              Nat.div_eq_of_lt (lt_of_lt_of_le hWlt
                (Nat.pow_le_pow_right (by norm_num) (by omega)))
            have hz2 : V % 2 ^ (m * 5 + 5) / 2 ^ (8 * r) = 0 :=
              Nat.div_eq_of_lt (lt_of_lt_of_le (Nat.mod_lt _ (Nat.two_pow_pos _))
                (Nat.pow_le_pow_right (by norm_num) (by omega)))
            rw [hz1, hz2]
  · rw [if_neg hcase]
    have hVd : V / 2 ^ (m * 5) < 2 ^ (8 - m * 5 % 8) := by
      apply Nat.div_lt_of_lt_mul
      calc V < 2 ^ (8 * size) := hV
      _ ≤ 2 ^ (m * 5 + (8 - m * 5 % 8)) := Nat.pow_le_pow_right (by norm_num) (by omega)
      _ = 2 ^ (m * 5) * 2 ^ (8 - m * 5 % 8) := pow_add 2 _ _
    have hd8 : V / 2 ^ (m * 5) % 32 < 2 ^ (8 - m * 5 % 8) :=
      lt_of_le_of_lt (Nat.mod_le _ _) hVd
    have hspill : (V / 2 ^ (m * 5) % 32) >>> (8 - m * 5 % 8) = 0 := by
      rw [Nat.shiftRight_eq_div_pow]
      exact Nat.div_eq_of_lt hd8
    rw [hspill]
    rw [if_neg (by simp)]
    have hW'lt : V % 2 ^ (m * 5 + 5) < 2 ^ (8 * (m * 5 / 8) + 8) := by
      rw [hW'2]
      calc V % 2 ^ (m * 5)
            + V / 2 ^ (m * 5) % 32 * 2 ^ (8 * (m * 5 / 8) + m * 5 % 8)
          < 2 ^ (8 * (m * 5 / 8) + m * 5 % 8)
            + V / 2 ^ (m * 5) % 32 * 2 ^ (8 * (m * 5 / 8) + m * 5 % 8) :=
            Nat.add_lt_add_right hWlt _
        _ = (V / 2 ^ (m * 5) % 32 + 1) * 2 ^ (8 * (m * 5 / 8) + m * 5 % 8) := by ring
        _ ≤ 2 ^ (8 - m * 5 % 8) * 2 ^ (8 * (m * 5 / 8) + m * 5 % 8) :=
            Nat.mul_le_mul_right _ (by omega)
        _ = 2 ^ (8 * (m * 5 / 8) + 8) := by rw [← pow_add]; congr 1; omega
    congr 1
    apply list_eq_of_getD
    · simp [byteListOf_length]
    · intro r hr
      simp only [List.length_set, byteListOf_length] at hr
      rcases eq_or_ne r (m * 5 / 8) with rfl | hne2
      · rw [getD_set_self _ _ _ (by rw [byteListOf_length]; exact hr),
          getD_byteListOf _ _ hr, ← hW'2]
      · rw [getD_set_ne _ _ _ _ (Ne.symm hne2), getD_byteListOf _ _ hr,
          getD_byteListOf _ _ hr]
        rcases Nat.lt_or_ge r (m * 5 / 8) with hri | hri
        · rw [hW'2, add_mul_pow_div_mod _ _ _ _ (by omega)]
        · have hr1 : m * 5 / 8 + 1 ≤ r := by omega
          have hz1 : V % 2 ^ (m * 5) / 2 ^ (8 * r) = 0 :=
            Nat.div_eq_of_lt (lt_of_lt_of_le hWlt
              (Nat.pow_le_pow_right (by norm_num) (by omega)))
          have hz2 : V % 2 ^ (m * 5 + 5) / 2 ^ (8 * r) = 0 :=
            Nat.div_eq_of_lt (lt_of_lt_of_le hW'lt
              (Nat.pow_le_pow_right (by norm_num) (by omega)))
          rw [hz1, hz2]

theorem except_ok_bind {ε α β : Type} (a : α) (f : α → Except ε β) :
    (Except.ok a >>= f) = f a := rfl

theorem parseBase32_loop (size : Nat) (rest : List Char) (V : Nat)
    (hV : V < 2 ^ (8 * size)) (hn1 : 1 ≤ size) (hn64 : size ≤ maxHashSize)
    (hc : ∀ m, m < (8 * size + 4) / 5 →
      rest.getD (rest.length - m - 1) ' '
        = base32Chars.getD (V / 2 ^ (m * 5) % 32) ' ') :
    ∀ M, M ≤ (8 * size + 4) / 5 →
      (List.range M).foldlM (parseBase32Step size rest) (List.replicate maxHashSize 0)
        = .ok (byteListOf (V % 2 ^ (M * 5))) := by
  intro M
  induction M with
  | zero =>
    intro _
    simp only [List.range_zero, List.foldlM_nil]
    rw [show 0 * 5 = 0 by ring, pow_zero, Nat.mod_one, byteListOf_zero]
    rfl
  | succ n ih =>
    intro hM
    rw [List.range_succ, List.foldlM_append, ih (by omega)]
    rw [except_ok_bind]
    simp only [List.foldlM_cons, List.foldlM_nil]
    rw [parseBase32Step_ok size rest V n hV hn1 hn64 (by omega) (hc n (by omega)),
      except_ok_bind]
    rw [show n * 5 + 5 = (n + 1) * 5 by ring]
    rfl

theorem parseBase32_printHash32 (t : HashType) (bs : List Nat)
    (hlen : bs.length = regularHashSize t) (hb : ∀ x ∈ bs, x < 256) :
    parseBase32 (regularHashSize t) (printHash32 (Hash.ofBytes t bs))
      = .ok (bs ++ List.replicate (maxHashSize - bs.length) 0) := by
  have h64 : maxHashSize = 64 := rfl
  have hn1 : 1 ≤ regularHashSize t := one_le_regularHashSize t
  have hn64 : regularHashSize t ≤ maxHashSize := regularHashSize_le_max t
  have hV : byteVal bs < 2 ^ (8 * regularHashSize t) := by
    rw [← hlen]; exact byteVal_lt bs hb
  have hrl : (printHash32 (Hash.ofBytes t bs)).length
      = (8 * regularHashSize t + 4) / 5 := by
    rw [printHash32_ofBytes_length, hlen]
  have hfold := parseBase32_loop (regularHashSize t) (printHash32 (Hash.ofBytes t bs))
    (byteVal bs) hV hn1 hn64 ?_ ((8 * regularHashSize t + 4) / 5) le_rfl
  · rw [parseBase32, hrl, hfold]
    congr 1
    have hVmod : byteVal bs % 2 ^ ((8 * regularHashSize t + 4) / 5 * 5) = byteVal bs := by
      apply Nat.mod_eq_of_lt
      exact lt_of_lt_of_le hV (Nat.pow_le_pow_right (by norm_num) (by omega))
    rw [hVmod]
    apply list_eq_of_getD
    · rw [byteListOf_length]
      simp only [List.length_append, List.length_replicate]
      omega
    · intro r hr
      rw [byteListOf_length] at hr
      rw [getD_byteListOf _ _ hr, getD_append_pad, byteVal_getD bs hb r]
  · intro m hm
    rw [hrl]
    have hidx : (8 * regularHashSize t + 4) / 5 - m - 1
        = (8 * bs.length + 4) / 5 - 1 - m := by rw [hlen]; omega
    rw [hidx]
    have hm' : m < (8 * bs.length + 4) / 5 := by rw [hlen]; exact hm
    exact printHash32_ofBytes_getD t bs hb (by omega) m hm'

/-! ## Claim C1: parseAny round-trip -/

theorem hash_beq_refl (h : Hash) : Hash.beq h h = true := by
  simp [Hash.beq, List.all_eq_true]

theorem splitPrefixTo_append (sep : Char) (pre suf : List Char) (hpre : sep ∉ pre) :
    splitPrefixTo sep (pre ++ sep :: suf) = some (pre, suf) := by
  induction pre with
  | nil => simp [splitPrefixTo]
  | cons c cs ih =>
    have hc : ¬(c = sep) := fun h => hpre (h ▸ List.mem_cons_self c cs)
    rw [List.cons_append, splitPrefixTo, if_neg hc,
      ih (fun h => hpre (List.mem_cons_of_mem _ h))]

theorem splitPrefixTo_none (sep : Char) (s : List Char) (h : sep ∉ s) :
    splitPrefixTo sep s = none := by
  induction s with
  | nil => rfl
  | cons c cs ih =>
    have hc : ¬(c = sep) := fun hh => h (hh ▸ List.mem_cons_self c cs)
    rw [splitPrefixTo, if_neg hc, ih (fun hh => h (List.mem_cons_of_mem _ hh))]

theorem getParsed_colon (t : HashType) (body : List Char) :
    getParsedTypeAndSRI (printHashType t ++ ':' :: body) = .ok (some t, false, body) := by
  rw [getParsedTypeAndSRI, splitPrefixTo_append ':' _ _ (by cases t <;> decide)]
  cases t <;> rfl

theorem colon_not_in_base64 (bs : List Nat) (hb : ∀ x ∈ bs, x < 256) :
    ':' ∉ base64Encode bs := by
  intro h
  rcases base64Encode_chars bs hb ':' h with h1 | h1
  · revert h1; decide
  · exact absurd h1 (by decide)

theorem getParsed_dash (t : HashType) (body : List Char) (hbody : ':' ∉ body) :
    getParsedTypeAndSRI (printHashType t ++ '-' :: body) = .ok (some t, true, body) := by
  rw [getParsedTypeAndSRI]
  have hwhole : ':' ∉ printHashType t ++ '-' :: body := by
    intro hmem
    rcases List.mem_append.1 hmem with h | h
    · revert h; cases t <;> decide
    · rcases List.mem_cons.1 h with h | h
      · exact absurd h (by decide)
      · exact hbody h
  rw [splitPrefixTo_none ':' _ hwhole,
    splitPrefixTo_append '-' _ _ (by cases t <;> decide)]
  cases t <;> rfl

theorem ofParse_base16 (t : HashType) (bs : List Nat)
    (hlen : bs.length = regularHashSize t) (hb : ∀ x ∈ bs, x < 256) :
    Hash.ofParse (printHash16 (Hash.ofBytes t bs)) t false = .ok (Hash.ofBytes t bs) := by
  have hblen : (printHash16 (Hash.ofBytes t bs)).length = 2 * bs.length := by
    rw [printHash16_ofBytes]; exact length_flatMap_pair _ _ bs
  simp only [Hash.ofParse]
  rw [if_pos ⟨by simp, by rw [hblen, hlen]; cases t <;> rfl⟩]
  rw [printHash16_ofBytes, parseBase16_flatMap bs hb, except_ok_bind]
  simp [Hash.ofType, Hash.ofBytes, hlen]

theorem ofParse_base32 (t : HashType) (bs : List Nat)
    (hlen : bs.length = regularHashSize t) (hb : ∀ x ∈ bs, x < 256) :
    Hash.ofParse (printHash32 (Hash.ofBytes t bs)) t false = .ok (Hash.ofBytes t bs) := by
  have hblen : (printHash32 (Hash.ofBytes t bs)).length = (8 * regularHashSize t + 4) / 5 := by
    rw [printHash32_ofBytes_length, hlen]
  simp only [Hash.ofParse]
  rw [if_neg (by
    intro hcon
    have h2 := hcon.2
    rw [hblen] at h2
    revert h2
    cases t <;> decide)]
  rw [if_pos ⟨by simp, by rw [hblen]; cases t <;> rfl⟩]
  have hsz : (Hash.ofType t).hashSize = regularHashSize t := rfl
  rw [hsz, parseBase32_printHash32 t bs hlen hb, except_ok_bind]
  simp [Hash.ofType, Hash.ofBytes, hlen]

theorem ofParse_base64 (t : HashType) (bs : List Nat)
    (hlen : bs.length = regularHashSize t) (hb : ∀ x ∈ bs, x < 256) :
    Hash.ofParse (base64Encode bs) t false = .ok (Hash.ofBytes t bs) := by
  have hblen : (base64Encode bs).length = 4 * ((bs.length + 2) / 3) :=
    base64Encode_length bs
  simp only [Hash.ofParse]
  rw [if_neg (by
    intro hcon
    have h2 := hcon.2
    rw [hblen, hlen] at h2
    revert h2
    cases t <;> decide)]
  rw [if_neg (by
    intro hcon
    have h2 := hcon.2
    rw [hblen, hlen] at h2
    revert h2
    cases t <;> decide)]
  rw [if_pos (Or.inr (by rw [hblen, hlen]; cases t <;> rfl))]
  rw [base64_roundtrip bs hb]
  simp [Hash.ofType, Hash.ofBytes, hlen]

theorem ofParse_sri (t : HashType) (bs : List Nat)
    (hlen : bs.length = regularHashSize t) (hb : ∀ x ∈ bs, x < 256) :
    Hash.ofParse (base64Encode bs) t true = .ok (Hash.ofBytes t bs) := by
  simp only [Hash.ofParse]
  rw [if_neg (fun hcon => hcon.1 trivial)]
  rw [if_neg (fun hcon => hcon.1 trivial)]
  rw [if_pos (Or.inl trivial)]
  rw [base64_roundtrip bs hb]
  simp [Hash.ofType, Hash.ofBytes, hlen]

/-- C1: for every hash type, every byte string of the type's natural size,
and every format, rendering with `to_string(format, include_type := true)`
and re-parsing with `parseAny` (no expected type) succeeds and returns a
hash that is `==`-equal to the original. -/
theorem parseAny_roundtrip (t : HashType) (f : HashFormat) (bs : List Nat)
    (hlen : bs.length = regularHashSize t) (hb : ∀ x ∈ bs, x < 256) :
    ∃ h2, Hash.parseAny ((Hash.ofBytes t bs).to_string f true) none = .ok h2 ∧
      Hash.beq h2 (Hash.ofBytes t bs) = true := by
  have htake : (Hash.ofBytes t bs).hash.take (Hash.ofBytes t bs).hashSize = bs :=
    List.take_left' rfl
  suffices hs : Hash.parseAny ((Hash.ofBytes t bs).to_string f true) none
      = .ok (Hash.ofBytes t bs) from ⟨_, hs, hash_beq_refl _⟩
  cases f with
  | base16 =>
    have hts : (Hash.ofBytes t bs).to_string .base16 true
        = printHashType t ++ ':' :: printHash16 (Hash.ofBytes t bs) := by
      simp [Hash.to_string, List.append_assoc, Hash.ofBytes]
    rw [hts]
    simp only [Hash.parseAny]
    rw [getParsed_colon, except_ok_bind]
    exact ofParse_base16 t bs hlen hb
  | base32 =>
    have hts : (Hash.ofBytes t bs).to_string .base32 true
        = printHashType t ++ ':' :: printHash32 (Hash.ofBytes t bs) := by
      simp [Hash.to_string, List.append_assoc, Hash.ofBytes]
    rw [hts]
    simp only [Hash.parseAny]
    rw [getParsed_colon, except_ok_bind]
    exact ofParse_base32 t bs hlen hb
  | base64 =>
    have hts : (Hash.ofBytes t bs).to_string .base64 true
        = printHashType t ++ ':' :: base64Encode bs := by
      simp [Hash.to_string, List.append_assoc, Hash.ofBytes, htake]
    rw [hts]
    simp only [Hash.parseAny]
    rw [getParsed_colon, except_ok_bind]
    exact ofParse_base64 t bs hlen hb
  | sri =>
    have hts : (Hash.ofBytes t bs).to_string .sri true
        = printHashType t ++ '-' :: base64Encode bs := by
      simp [Hash.to_string, List.append_assoc, Hash.ofBytes, htake]
    rw [hts]
    simp only [Hash.parseAny]
    rw [getParsed_dash t _ (colon_not_in_base64 bs hb), except_ok_bind]
    exact ofParse_sri t bs hlen hb

/-- C1 witness: the round-trip at a concrete MD5 hash in base-32 form. -/
theorem parseAny_roundtrip_witness :
    ∃ h2, Hash.parseAny ((Hash.ofBytes .md5 (List.range 16)).to_string .base32 true) none
        = .ok h2 ∧
      Hash.beq h2 (Hash.ofBytes .md5 (List.range 16)) = true :=
  parseAny_roundtrip .md5 .base32 (List.range 16) (by decide) (by decide)

/-! ## Claim C3: base-32 parse accumulation and rejection -/

theorem parseBase32Step_err_iff (size : Nat) (rest : List Char) (buf : List Nat) (n : Nat) :
    parseBase32Step size rest buf n = .error .badHashEncoding
      ↔ (32 ≤ base32Chars.findIdx (· = rest.getD (rest.length - n - 1) ' ')
         ∨ (size - 1 ≤ n * 5 / 8
            ∧ (base32Chars.findIdx (· = rest.getD (rest.length - n - 1) ' '))
                >>> (8 - n * 5 % 8) ≠ 0)) := by
  simp only [parseBase32Step]
  by_cases h32 : 32 ≤ base32Chars.findIdx (· = rest.getD (rest.length - n - 1) ' ')
  · rw [if_pos h32]
    exact iff_of_true rfl (.inl h32)
  · rw [if_neg h32]
    by_cases hcase : n * 5 / 8 < size - 1
    · rw [if_pos hcase]
      refine iff_of_false (by simp) ?_
      rintro (h | ⟨hs, _⟩)
      · exact h32 h
      · omega
    · rw [if_neg hcase]
      by_cases hspill : (base32Chars.findIdx (· = rest.getD (rest.length - n - 1) ' '))
          >>> (8 - n * 5 % 8) ≠ 0
      · rw [if_pos hspill]
        exact iff_of_true rfl (.inr ⟨by omega, hspill⟩)
      · rw [if_neg hspill]
        refine iff_of_false (by simp) ?_
        rintro (h | ⟨_, hs⟩)
        · exact h32 h
        · exact hspill hs

theorem parseBase32Step_cases (size : Nat) (rest : List Char) (buf : List Nat) (n : Nat) :
    parseBase32Step size rest buf n = .error .badHashEncoding ∨
    ∃ buf', parseBase32Step size rest buf n = .ok buf' := by
  simp only [parseBase32Step]
  by_cases h32 : 32 ≤ base32Chars.findIdx (· = rest.getD (rest.length - n - 1) ' ')
  · rw [if_pos h32]; exact .inl rfl
  · rw [if_neg h32]
    by_cases hcase : n * 5 / 8 < size - 1
    · rw [if_pos hcase]; exact .inr ⟨_, rfl⟩
    · rw [if_neg hcase]
      by_cases hspill : (base32Chars.findIdx (· = rest.getD (rest.length - n - 1) ' '))
          >>> (8 - n * 5 % 8) ≠ 0
      · rw [if_pos hspill]; exact .inl rfl
      · rw [if_neg hspill]; exact .inr ⟨_, rfl⟩

theorem parseBase32_fold_err_iff (size : Nat) (rest : List Char) :
    ∀ M, ((List.range M).foldlM (parseBase32Step size rest) (List.replicate maxHashSize 0)
        = .error .badHashEncoding
      ↔ ∃ m, m < M ∧
          (32 ≤ base32Chars.findIdx (· = rest.getD (rest.length - m - 1) ' ')
           ∨ (size - 1 ≤ m * 5 / 8
              ∧ (base32Chars.findIdx (· = rest.getD (rest.length - m - 1) ' '))
                  >>> (8 - m * 5 % 8) ≠ 0))) ∧
      ((∃ buf, (List.range M).foldlM (parseBase32Step size rest)
          (List.replicate maxHashSize 0) = .ok buf)
       ∨ (List.range M).foldlM (parseBase32Step size rest)
          (List.replicate maxHashSize 0) = .error .badHashEncoding) := by
  intro M
  induction M with
  | zero =>
    simp only [List.range_zero, List.foldlM_nil]
    refine ⟨iff_of_false (by intro h; simp [pure, Except.pure] at h)
      (by rintro ⟨m, hm, _⟩; omega), .inl ⟨_, rfl⟩⟩
  | succ n ih =>
    obtain ⟨ih1, ih2⟩ := ih
    rw [List.range_succ, List.foldlM_append]
    rcases ih2 with ⟨buf, hbuf⟩ | herr
    · rw [hbuf, except_ok_bind]
      simp only [List.foldlM_cons, List.foldlM_nil]
      rcases parseBase32Step_cases size rest buf n with hstep | ⟨buf', hstep⟩
      · rw [hstep]
        refine ⟨⟨fun _ => ⟨n, by omega, (parseBase32Step_err_iff size rest buf n).1 hstep⟩,
          fun _ => rfl⟩, .inr rfl⟩
      · rw [hstep, except_ok_bind]
        constructor
        · constructor
          · intro hcontra; exact absurd hcontra (by simp [pure, Except.pure])
          · rintro ⟨m, hm, hcond⟩
            rcases Nat.lt_or_ge m n with hmn | hmn
            · exfalso
              have hcon := ih1.2 ⟨m, hmn, hcond⟩
              rw [hbuf] at hcon
              exact absurd hcon (by simp)
            · have hmeq : m = n := by omega
              subst hmeq
              have hcon := (parseBase32Step_err_iff size rest buf m).2 hcond
              rw [hstep] at hcon
              exact absurd hcon (by simp)
        · exact .inl ⟨buf', rfl⟩
    · rw [herr]
      refine ⟨⟨fun _ => ?_, fun _ => rfl⟩, .inr rfl⟩
      obtain ⟨m, hm, hc⟩ := ih1.1 herr
      exact ⟨m, by omega, hc⟩

/-- C3 (amended): with a valid digit `d` at loop counter `n` (`i = 5n/8`,
`j = 5n%8`), the step accumulates `bytes[i] |= d << j` and, when
`i + 1 < size`, `bytes[i+1] |= d >> (8−j)`; the rejection condition is
`i == size − 1` (equivalently `i + 1 == size`), not `i + 1 == size − 1`:
on the byte holding the digest's top bits the step fails with
BadHashEncoding exactly when the high bits `d >> (8−j)` are non-zero, and
the whole base-32 parse loop fails with BadHashEncoding exactly when some
position holds an invalid character or spills non-zero bits beyond the
digest. -/
theorem base32_parse_accumulate_reject (size : Nat) (rest : List Char) (buf : List Nat)
    (n : Nat)
    (hd : base32Chars.findIdx (· = rest.getD (rest.length - n - 1) ' ') < 32) :
    (n * 5 / 8 < size - 1 →
      parseBase32Step size rest buf n
        = .ok ((buf.set (n * 5 / 8)
            ((buf.getD (n * 5 / 8) 0
              ||| ((base32Chars.findIdx (· = rest.getD (rest.length - n - 1) ' '))
                    <<< (n * 5 % 8))) &&& 0xff)).set (n * 5 / 8 + 1)
            (((buf.set (n * 5 / 8)
                ((buf.getD (n * 5 / 8) 0
                  ||| ((base32Chars.findIdx (· = rest.getD (rest.length - n - 1) ' '))
                        <<< (n * 5 % 8))) &&& 0xff)).getD (n * 5 / 8 + 1) 0
              ||| ((base32Chars.findIdx (· = rest.getD (rest.length - n - 1) ' '))
                    >>> (8 - n * 5 % 8))) &&& 0xff))) ∧
    (size - 1 ≤ n * 5 / 8 →
      (parseBase32Step size rest buf n = .error .badHashEncoding
        ↔ (base32Chars.findIdx (· = rest.getD (rest.length - n - 1) ' '))
            >>> (8 - n * 5 % 8) ≠ 0)) ∧
    (parseBase32 size rest = .error .badHashEncoding
      ↔ ∃ m, m < rest.length ∧
          (32 ≤ base32Chars.findIdx (· = rest.getD (rest.length - m - 1) ' ')
           ∨ (size - 1 ≤ m * 5 / 8
              ∧ (base32Chars.findIdx (· = rest.getD (rest.length - m - 1) ' '))
                  >>> (8 - m * 5 % 8) ≠ 0))) := by
  refine ⟨?_, ?_, ?_⟩
  · intro hcase
    simp only [parseBase32Step]
    rw [if_neg (by omega), if_pos hcase]
  · intro hcase
    rw [parseBase32Step_err_iff]
    constructor
    · rintro (h32 | ⟨_, hs⟩)
      · omega
      · exact hs
    · intro hs
      exact .inr ⟨hcase, hs⟩
  · exact (parseBase32_fold_err_iff size rest rest.length).1

/-- C3 witness: the step at the leading character of a 26-character MD5
base-32 string whose top digit spills non-zero bits is rejected. -/
theorem base32_parse_accumulate_reject_witness :
    parseBase32Step 16 ('i' :: List.replicate 25 '0') (List.replicate maxHashSize 0) 25
      = .error .badHashEncoding :=
  ((base32_parse_accumulate_reject 16 ('i' :: List.replicate 25 '0')
      (List.replicate maxHashSize 0) 25 (by decide)).2.1 (by decide)).mpr (by decide)

/-- C3 counterexample: a valid 52-character SHA-256 base-32 string at which
the spec's condition (`i+1 == size−1` with non-zero high bits, at position
`m = 49`) holds, yet the parsing constructor succeeds and returns a Hash
instead of failing with BadHashEncoding. -/
theorem base32_spec_condition_counterexample :
    base32SpecRejects 32 ("008".toList ++ List.replicate 49 '0') = true ∧
    (Hash.ofParse ("008".toList ++ List.replicate 49 '0') .sha256 false).isOk = true := by
  constructor <;> decide

/-! ## Claim C4: the canonical fingerprint -/

/-- C4: `fingerprint` fails with FingerprintUnavailable exactly when
`narSize == 0`; with `narSize > 0` it returns exactly the canonical
`"1;path;narHash;narSize;refs"` string; and it is a pure function of
`(path, narHash, narSize, references)` — no other field affects it. -/
theorem fingerprint_spec (store : StoreModel) (v : ValidPathInfo) :
    (v.fingerprint store = .error .fingerprintUnavailable ↔ v.narSize = 0) ∧
    (0 < v.narSize →
      v.fingerprint store
        = .ok ("1;".toList ++ store.printStorePath v.path ++ ";".toList
            ++ v.narHash.to_string .base32 true ++ ";".toList
            ++ (Nat.repr v.narSize).toList ++ ";".toList
            ++ concatStringsSep ",".toList (v.references.map store.printStorePath))) ∧
    (∀ w : ValidPathInfo, v.path = w.path → v.narHash = w.narHash →
      v.narSize = w.narSize → v.references = w.references →
      v.fingerprint store = w.fingerprint store) := by
  refine ⟨?_, ?_, ?_⟩
  · rw [ValidPathInfo.fingerprint]
    by_cases h : v.narSize = 0
    · rw [if_pos h]; exact iff_of_true rfl h
    · rw [if_neg h]; exact iff_of_false (by simp) h
  · intro h
    rw [ValidPathInfo.fingerprint, if_neg (by omega)]
    rfl
  · intro w h1 h2 h3 h4
    rw [ValidPathInfo.fingerprint, ValidPathInfo.fingerprint,
      ValidPathInfo.fingerprintStr, ValidPathInfo.fingerprintStr, h1, h2, h3, h4]

/-- C4 witness: the fingerprint of a concrete ValidPathInfo. -/
theorem fingerprint_spec_witness :
    ValidPathInfo.fingerprint
      { printStorePath := fun p => p, name := fun p => p,
        makeFixedOutputPathFromCA := fun _ _ => "cap".toList }
      { path := "p1".toList, deriver := none, narHash := Hash.dummy,
        references := ["r1".toList, "r2".toList], registrationTime := 0,
        narSize := 7, ultimate := false, sigs := [], ca := none }
      = .ok ("1;p1;sha256:0000000000000000000000000000000000000000000000000000;7;r1,r2".toList)
    := by
  rw [(fingerprint_spec _ _).2.1 (by norm_num)]
  decide

/-! ## Claim C5: counting valid signatures -/

/-- C5 counterexample: for a non-content-addressed info with `narSize == 0`
and a non-empty signature set, `checkSignatures` propagates
FingerprintUnavailable instead of returning the number of individually
verifying signatures (here the always-true verifier would count 1). -/
theorem checkSignatures_narSize0_counterexample :
    (ValidPathInfo.isContentAddressed
        { printStorePath := fun p => p, name := fun p => p,
          makeFixedOutputPathFromCA := fun _ _ => "cap".toList }
        { path := "p1".toList, deriver := none, narHash := Hash.dummy,
          references := [], registrationTime := 0, narSize := 0,
          ultimate := false, sigs := ["s1".toList], ca := none }
      = .ok false) ∧
    (ValidPathInfo.checkSignatures
        { printStorePath := fun p => p, name := fun p => p,
          makeFixedOutputPathFromCA := fun _ _ => "cap".toList }
        { verify := fun _ _ => true }
        { path := "p1".toList, deriver := none, narHash := Hash.dummy,
          references := [], registrationTime := 0, narSize := 0,
          ultimate := false, sigs := ["s1".toList], ca := none }
      = .error .fingerprintUnavailable) := by
  constructor <;> rfl

theorem checkSig_fold (store : StoreModel) (publicKeys : PublicKeys)
    (v : ValidPathInfo) (hns : ¬v.narSize = 0) :
    ∀ (sigs : List (List Char)) (acc : Nat),
      sigs.foldlM (fun good sig => do
        if ← v.checkSignature store publicKeys sig then pure (good + 1) else pure good) acc
      = .ok (acc + sigs.countP fun sig =>
          verifyDetached (v.fingerprintStr store) sig publicKeys) := by
  intro sigs
  induction sigs with
  | nil => intro acc; simp [List.countP_nil]; rfl
  | cons s tl ih =>
    intro acc
    rw [List.foldlM_cons]
    have hcs : v.checkSignature store publicKeys s
        = .ok (verifyDetached (v.fingerprintStr store) s publicKeys) := by
      rw [ValidPathInfo.checkSignature, ValidPathInfo.fingerprint, if_neg hns]
      rfl
    rw [hcs, except_ok_bind]
    by_cases hv : verifyDetached (v.fingerprintStr store) s publicKeys = true
    · rw [if_pos hv]
      have hpure : (pure (acc + 1) : Except PathInfoError Nat) = Except.ok (acc + 1) := rfl
      rw [hpure, except_ok_bind, ih (acc + 1)]
      congr 1
      rw [List.countP_cons]
      simp [hv]
      omega
    · rw [if_neg hv]
      have hpure : (pure acc : Except PathInfoError Nat) = Except.ok acc := rfl
      rw [hpure, except_ok_bind, ih acc]
      congr 1
      rw [List.countP_cons]
      simp [hv]

theorem except_err_bind {ε α β : Type} (e : ε) (f : α → Except ε β) :
    (Except.error e >>= f) = Except.error e := rfl

/-- C5 (amended): if the path is content-addressed, `checkSignatures`
returns the `maxSigs` sentinel even with no signatures and no keys;
otherwise — provided the fingerprint is computable (`narSize > 0`), or the
signature set is empty — it returns the number of signatures that
individually verify against the fingerprint; and with `narSize = 0` and a
non-empty signature set it instead propagates FingerprintUnavailable. -/
theorem checkSignatures_spec (store : StoreModel) (publicKeys : PublicKeys)
    (v : ValidPathInfo) :
    (v.isContentAddressed store = .ok true →
      v.checkSignatures store publicKeys = .ok maxSigs) ∧
    (v.isContentAddressed store = .ok false → 0 < v.narSize →
      v.checkSignatures store publicKeys
        = .ok (v.sigs.countP fun sig =>
            verifyDetached (v.fingerprintStr store) sig publicKeys)) ∧
    (v.isContentAddressed store = .ok false → v.sigs = [] →
      v.checkSignatures store publicKeys = .ok 0) ∧
    (v.isContentAddressed store = .ok false → v.narSize = 0 → v.sigs ≠ [] →
      v.checkSignatures store publicKeys = .error .fingerprintUnavailable) := by
  refine ⟨?_, ?_, ?_, ?_⟩
  · intro h
    rw [ValidPathInfo.checkSignatures, h, except_ok_bind]
    rfl
  · intro h hns
    rw [ValidPathInfo.checkSignatures, h, except_ok_bind]
    show v.sigs.foldlM _ 0 = _
    rw [checkSig_fold store publicKeys v (by omega) v.sigs 0]
    rw [Nat.zero_add]
  · intro h hsigs
    rw [ValidPathInfo.checkSignatures, h, except_ok_bind, hsigs]
    rfl
  · intro h hns hsig
    rw [ValidPathInfo.checkSignatures, h, except_ok_bind]
    obtain ⟨s, tl, hs⟩ := List.exists_cons_of_ne_nil hsig
    show v.sigs.foldlM _ 0 = _
    rw [hs, List.foldlM_cons]
    have hcs : v.checkSignature store publicKeys s
        = .error .fingerprintUnavailable := by
      rw [ValidPathInfo.checkSignature, ValidPathInfo.fingerprint, if_pos hns]
      rfl
    rw [hcs, except_err_bind]
    rfl

/-- C5 witness: a concrete content-addressed info gets the sentinel even
with an empty signature set and a never-verifying key set; and a concrete
non-content-addressed info with unknown size and one signature propagates
FingerprintUnavailable even with an always-verifying key set. -/
theorem checkSignatures_spec_witness :
    (ValidPathInfo.checkSignatures
      { printStorePath := fun p => p, name := fun p => p,
        makeFixedOutputPathFromCA := fun _ _ => "p1".toList }
      { verify := fun _ _ => false }
      { path := "p1".toList, deriver := none, narHash := Hash.dummy,
        references := [], registrationTime := 0, narSize := 0,
        ultimate := false, sigs := [],
        ca := some { method := .file .nar, hash := Hash.dummy } }
      = .ok maxSigs) ∧
    (ValidPathInfo.checkSignatures
      { printStorePath := fun p => p, name := fun p => p,
        makeFixedOutputPathFromCA := fun _ _ => "q2".toList }
      { verify := fun _ _ => true }
      { path := "p2".toList, deriver := none, narHash := Hash.dummy,
        references := [], registrationTime := 0, narSize := 0,
        ultimate := false, sigs := ["t".toList], ca := none }
      = .error .fingerprintUnavailable) :=
  ⟨(checkSignatures_spec _ _ _).1 (by rfl),
   (checkSignatures_spec _ _ _).2.2.2 (by rfl) rfl (by simp)⟩

/-! ## Claim C6: content-address reconstruction -/

theorem setErase_of_not_contains (x : StorePath) (l : List StorePath)
    (h : l.contains x = false) : setErase x l = l := by
  induction l with
  | nil => rfl
  | cons y ys ih =>
    simp only [List.contains_cons, Bool.or_eq_false_iff, beq_eq_false_iff_ne] at h
    simp only [setErase] at ih ⊢
    rw [List.filter_cons_of_pos (by simp only [decide_eq_true_eq]; exact Ne.symm h.1),
      ih h.2]

/-- C6: reconstruction returns nothing exactly when `ca` is none;
TextIngestion yields `TextInfo` with the stored hash and references (under
the no-self-reference precondition enforced by the `assert`); FileIngestion
yields `FixedOutputInfo` with `self = (path ∈ references)` and `others` the
references with the path removed. -/
theorem contentAddressWithReferences_spec (v : ValidPathInfo) :
    (v.contentAddressWithReferences = .ok none ↔ v.ca = none) ∧
    (∀ hh : Hash, v.ca = some { method := .text, hash := hh } →
      v.references.contains v.path = false →
      v.contentAddressWithReferences = .ok (some (.textInfo hh v.references))) ∧
    (∀ (m : FileIngestionMethod) (hh : Hash),
      v.ca = some { method := .file m, hash := hh } →
      v.contentAddressWithReferences
        = .ok (some (.fixedOutputInfo m hh (setErase v.path v.references)
            (v.references.contains v.path)))) := by
  refine ⟨?_, ?_, ?_⟩
  · rcases hca : v.ca with _ | ⟨meth, hh⟩
    · simp [ValidPathInfo.contentAddressWithReferences, hca]
    · cases meth with
      | text =>
        by_cases hcon : v.references.contains v.path = true
        · have hmem : v.path ∈ v.references := by simpa using hcon
          simp [ValidPathInfo.contentAddressWithReferences, hca, hmem]
        · have hmem : v.path ∉ v.references := by simpa using hcon
          simp [ValidPathInfo.contentAddressWithReferences, hca, hmem]
      | file m2 =>
        by_cases hcon : v.references.contains v.path = true
        · have hmem : v.path ∈ v.references := by simpa using hcon
          simp [ValidPathInfo.contentAddressWithReferences, hca, hmem]
        · have hmem : v.path ∉ v.references := by simpa using hcon
          simp [ValidPathInfo.contentAddressWithReferences, hca, hmem]
  · intro hh hca hcon
    have hmem : v.path ∉ v.references := by simpa using hcon
    simp [ValidPathInfo.contentAddressWithReferences, hca, hmem]
  · intro m hh hca
    by_cases hcon : v.references.contains v.path = true
    · have hmem : v.path ∈ v.references := by simpa using hcon
      simp [ValidPathInfo.contentAddressWithReferences, hca, hmem, hcon]
    · rw [Bool.not_eq_true] at hcon
      have hmem : v.path ∉ v.references := by simpa using hcon
      simp [ValidPathInfo.contentAddressWithReferences, hca, hmem, hcon,
        setErase_of_not_contains _ _ hcon]

/-- C6 witness: reconstruction of a concrete NAR content-address whose
references contain the path itself. -/
theorem contentAddressWithReferences_spec_witness :
    ValidPathInfo.contentAddressWithReferences
      { path := "px".toList, deriver := none, narHash := Hash.dummy,
        references := ["p1".toList, "px".toList], registrationTime := 0,
        narSize := 0, ultimate := false, sigs := [],
        ca := some { method := .file .nar, hash := Hash.dummy } }
      = .ok (some (.fixedOutputInfo .nar Hash.dummy ["p1".toList] true)) := by
  rw [(contentAddressWithReferences_spec _).2.2 .nar Hash.dummy rfl]
  decide

/-! ## Claim C7: keyed construction round-trip -/

theorem contains_setInsert_self (x : StorePath) (l : List StorePath) :
    (setInsert x l).contains x = true := by
  induction l with
  | nil => simp [setInsert]
  | cons y ys ih =>
    rw [setInsert]
    by_cases h1 : storePathLt x y
    · rw [if_pos h1]; simp
    · rw [if_neg h1]
      by_cases h2 : x = y
      · rw [if_pos h2]; simp [h2]
      · rw [if_neg h2]
        have hmem : x ∈ setInsert x ys := by simpa using ih
        simp [List.contains_cons, hmem]

theorem setErase_setInsert (x : StorePath) (l : List StorePath)
    (h : l.contains x = false) : setErase x (setInsert x l) = l := by
  induction l with
  | nil =>
    simp only [setInsert, setErase]
    rw [List.filter_cons_of_neg (by simp)]
    rfl
  | cons y ys ih =>
    simp only [List.contains_cons, Bool.or_eq_false_iff, beq_eq_false_iff_ne] at h
    rw [setInsert]
    by_cases h1 : storePathLt x y
    · rw [if_pos h1]
      simp only [setErase]
      rw [List.filter_cons_of_neg (by simp),
        List.filter_cons_of_pos (by simp only [decide_eq_true_eq]; exact Ne.symm h.1)]
      have h2 := setErase_of_not_contains x ys h.2
      simpa [setErase] using h2
    · rw [if_neg h1]
      by_cases h2 : x = y
      · exact absurd h2 h.1
      · rw [if_neg h2]
        simp only [setErase] at ih ⊢
        rw [List.filter_cons_of_pos (by simp only [decide_eq_true_eq]; exact Ne.symm h.1),
          ih h.2]

/-- C7 counterexample: when the derived path already occurs among the
`others` of a FixedOutputInfo with `self = false`, the reconstruction
reports `self = true` and drops the path from `others`, so the round-trip
does not return a value equal to the original `car`. -/
theorem ofCA_roundtrip_counterexample :
    (ValidPathInfo.ofCA
        { printStorePath := fun p => p, name := fun p => p,
          makeFixedOutputPathFromCA := fun _ _ => "p0".toList }
        "n".toList
        (.fixedOutputInfo .nar Hash.dummy ["p0".toList] false)
        Hash.dummy).contentAddressWithReferences
      = .ok (some (.fixedOutputInfo .nar Hash.dummy [] true)) ∧
    (ValidPathInfo.ofCA
        { printStorePath := fun p => p, name := fun p => p,
          makeFixedOutputPathFromCA := fun _ _ => "p0".toList }
        "n".toList
        (.fixedOutputInfo .nar Hash.dummy ["p0".toList] false)
        Hash.dummy).contentAddressWithReferences
      ≠ .ok (some (.fixedOutputInfo .nar Hash.dummy ["p0".toList] false)) := by
  constructor <;> decide

/-- C7 (amended): constructing a ValidPathInfo from
`(store, name, car, narHash)` and reconstructing the content-address
returns exactly `car`, provided the derived store path does not occur in
`car`'s own reference set (`references` of a TextInfo, `others` of a
FixedOutputInfo) — the invariant the data model stipulates. -/
theorem ofCA_roundtrip (store : StoreModel) (name : List Char)
    (car : ContentAddressWithReferences) (narHash : Hash)
    (hpre : match car with
      | .textInfo _ refs =>
          refs.contains (store.makeFixedOutputPathFromCA name car) = false
      | .fixedOutputInfo _ _ others _ =>
          others.contains (store.makeFixedOutputPathFromCA name car) = false) :
    (ValidPathInfo.ofCA store name car narHash).contentAddressWithReferences
      = .ok (some car) := by
  cases car with
  | textInfo hh refs =>
    simp only [ValidPathInfo.ofCA, ValidPathInfo.contentAddressWithReferences]
    rw [if_neg (by rw [hpre]; simp)]
  | fixedOutputInfo m hh others self =>
    cases self with
    | false =>
      simp only [ValidPathInfo.ofCA, ValidPathInfo.contentAddressWithReferences,
        if_neg, Bool.false_eq_true, if_false]
      rw [if_neg (by rw [hpre]; simp)]
    | true =>
      simp only [ValidPathInfo.ofCA, ValidPathInfo.contentAddressWithReferences,
        if_pos, if_true]
      rw [if_pos (by rw [contains_setInsert_self]),
        setErase_setInsert _ _ hpre]

/-- C7 witness: the round-trip at a concrete FixedOutputInfo with a self
reference. -/
theorem ofCA_roundtrip_witness :
    (ValidPathInfo.ofCA
        { printStorePath := fun p => p, name := fun p => p,
          makeFixedOutputPathFromCA := fun _ _ => "self".toList }
        "n".toList
        (.fixedOutputInfo .nar Hash.dummy ["p1".toList] true)
        Hash.dummy).contentAddressWithReferences
      = .ok (some (.fixedOutputInfo .nar Hash.dummy ["p1".toList] true)) :=
  ofCA_roundtrip _ _ _ _ (by decide)

end Nix
